import Mathlib

/-!
Verification of the GarnettAI conversational RAG pipeline
(src/garnett_frontend/src/app/api/answer_with_rag/route.js).

The development shallowly embeds the pipeline of the `answer_with_rag`
route: the in-memory RateMyProfessor cache (a JavaScript `Map` used as an
LRU store with a TTL), the course-code extractor, the batched existence
check, and the streaming/non-streaming answer generators.  External
effects (database rows, HTTP scraping, the language model) are modelled
as oracle parameters; everything the route itself computes is translated
directly from the source.
-/

set_option autoImplicit false

namespace GarnettAI

universe u v

variable {α : Type u} {δ : Type v}

/-! ### Model of the JavaScript `Map`

A JS `Map` iterates in insertion order; `set` on an existing key updates
the value in place (keeping the key's position), while `delete` followed
by `set` moves the key to the end.  We model a `Map` as an association
list in iteration order. -/

/-- `Map.get`: first value stored under `k`, if any. -/
def mapLookup [DecidableEq α] : List (α × δ) → α → Option δ
  | [], _ => none
  | (a, b) :: t, k => if a = k then some b else mapLookup t k

/-- `Map.set`: update in place when the key is present, append otherwise. -/
def mapSet [DecidableEq α] : List (α × δ) → α → δ → List (α × δ)
  | [], k, v => [(k, v)]
  | (a, b) :: t, k, v => if a = k then (k, v) :: t else (a, b) :: mapSet t k v

/-- `Map.delete`: remove the entry stored under `k` (the first one, which
is the only one for lists built through `mapSet`). -/
def mapDelete [DecidableEq α] : List (α × δ) → α → List (α × δ)
  | [], _ => []
  | (a, b) :: t, k => if a = k then t else (a, b) :: mapDelete t k

/-- Iteration order of the keys (`Map.keys`). -/
def mapKeys (l : List (α × δ)) : List α := l.map Prod.fst

/-! ### The RateMyProfessor cache (route.js lines 201-262)

`rmpCache` maps a professor id to `{ data, timestamp }`.  Timestamps are
`Date.now()` values, modelled as integers.  The id and data types are
parameters of the model (the source stores strings and scraped records). -/

/-- A cached value: `{ data, timestamp }` as stored by `setCachedRmpData`. -/
structure CacheEntry (δ : Type v) where
  data : δ
  timestamp : Int
deriving DecidableEq

/-- The in-memory `rmpCache` map in iteration order. -/
abbrev RmpCache (α : Type u) (δ : Type v) : Type max u v := List (α × CacheEntry δ)

/-- `CACHE_DURATION = 24 * 60 * 60 * 1000` milliseconds. -/
def CACHE_DURATION : Int := 24 * 60 * 60 * 1000

/-- `MAX_CACHE_SIZE = 1500` entries. -/
def MAX_CACHE_SIZE : Nat := 1500

/-- `getCachedRmpData(profId)` at time `now`: returns the data only when an
entry is present and younger than `CACHE_DURATION`; a hit is moved to the
end of the map (delete + set), an expired entry is deleted.  Returns the
value produced together with the updated cache. -/
def getCachedRmpData [DecidableEq α] (c : RmpCache α δ) (profId : α) (now : Int) :
    Option δ × RmpCache α δ :=
  match mapLookup c profId with
  | some cached =>
    if now - cached.timestamp < CACHE_DURATION then
      (some cached.data, mapSet (mapDelete c profId) profId cached)
    else
      (none, mapDelete c profId)
  | none => (none, c)

/-- `setCachedRmpData(profId, data)` at time `now`: when the map already
holds `MAX_CACHE_SIZE` or more entries the first key in iteration order
(`rmpCache.keys().next().value`) is deleted, then the entry is written
with a fresh timestamp via `Map.set`. -/
def setCachedRmpData [DecidableEq α] (c : RmpCache α δ) (profId : α) (data : δ)
    (now : Int) : RmpCache α δ :=
  mapSet
    (if MAX_CACHE_SIZE ≤ c.length then
      match c.head? with
      | some (oldestKey, _) => mapDelete c oldestKey
      | none => c
    else c)
    profId ⟨data, now⟩

/-- The record returned by `getCacheStats()`. -/
structure CacheStats (α : Type u) where
  size : Nat
  maxSize : Nat
  valid : Nat
  expired : Nat
  utilizationPercent : Nat
  entries : List α
deriving DecidableEq

/-- `getCacheStats()` at time `now`: counts entries strictly older than
`CACHE_DURATION` as expired (they are still stored), the rest as valid.
`Math.round(size / MAX * 100)` is modelled exactly on naturals. -/
def getCacheStats (c : RmpCache α δ) (now : Int) : CacheStats α :=
  { size := c.length
    maxSize := MAX_CACHE_SIZE
    valid := (c.filter (fun e => ¬ (CACHE_DURATION < now - e.2.timestamp))).length
    expired := (c.filter (fun e => CACHE_DURATION < now - e.2.timestamp)).length
    utilizationPercent := (c.length * 100 * 2 + MAX_CACHE_SIZE) / (2 * MAX_CACHE_SIZE)
    entries := (mapKeys c).take 10 }

/-- One externally observable cache operation, with the `Date.now()` value
at which it runs. -/
inductive CacheOp (α : Type u) (δ : Type v) where
  | put (id : α) (data : δ) (now : Int)
  | get (id : α) (now : Int)

/-- Effect of one operation on the cache state. -/
def cacheStep [DecidableEq α] (c : RmpCache α δ) : CacheOp α δ → RmpCache α δ
  | .put id data now => setCachedRmpData c id data now
  | .get id now => (getCachedRmpData c id now).2

/-- Run a sequence of operations from the empty cache (process start). -/
def runCacheOps [DecidableEq α] (ops : List (CacheOp α δ)) : RmpCache α δ :=
  ops.foldl cacheStep []

/-- Fold a list of `put`s (with per-id data and timestamps) from the empty
cache. -/
def runPuts [DecidableEq α] (ids : List α) (data : α → δ) (time : α → Int) :
    RmpCache α δ :=
  ids.foldl (fun c i => setCachedRmpData c i (data i) (time i)) []

/-! ### Course-code extraction (route.js lines 264-290)

`extractCoursesAndProfessors` uppercases the query and collects all
matches of `/([A-Z]{2,4})[\s-]?([0-9]{3})/g`, formats each match as
`LETTERS SPACE DIGITS` and deduplicates through a `Set` (which keeps
first-occurrence order).  The regex engine scans left to right; at a
match position the `{2,4}` quantifier is greedy (tries 4, then 3, then 2
letters) and `[\s-]?` is greedy (tries the separator before skipping it);
`matchAll` resumes after the end of each match and otherwise advances
one character. -/

/-- ASCII uppercase letter, the `[A-Z]` character class. -/
def isUpperLetter (c : Char) : Bool := 65 ≤ c.toNat && c.toNat ≤ 90

/-- ASCII lowercase letter. -/
def isLowerLetter (c : Char) : Bool := 97 ≤ c.toNat && c.toNat ≤ 122

/-- ASCII digit, the `[0-9]` character class. -/
def isDigitChar (c : Char) : Bool := 48 ≤ c.toNat && c.toNat ≤ 57

/-- The JavaScript `\s` character class (ECMAScript WhiteSpace and
LineTerminator code points). -/
def jsWhitespace (c : Char) : Bool :=
  c.toNat ∈ [0x9, 0xa, 0xb, 0xc, 0xd, 0x20, 0xa0, 0x1680,
    0x2000, 0x2001, 0x2002, 0x2003, 0x2004, 0x2005, 0x2006, 0x2007,
    0x2008, 0x2009, 0x200a, 0x2028, 0x2029, 0x202f, 0x205f, 0x3000, 0xfeff]

/-- The `[\s-]` character class of the course regex (code point 45 is
the hyphen). -/
def codeSep (c : Char) : Bool := jsWhitespace c || c.toNat = 45

/-- ASCII uppercasing of one character (lowercase a-z to A-Z, all else
unchanged).  This is the restriction of `toUpperCase` to ASCII text; the
specification-side matcher uses it to normalize the ASCII letters it
matched case-insensitively. -/
def asciiUpper (c : Char) : Char :=
  if 97 ≤ c.toNat && c.toNat ≤ 122 then Char.ofNat (c.toNat - 32) else c

/-- Per-character model of `String.prototype.toUpperCase` (default, non
locale-sensitive Unicode case conversion, which maps one character to a
string).  The mapping is exact on every character whose uppercase image
can contain a character of the course regex classes, namely `[A-Z]`:
ASCII a-z, sharp s (U+00DF becomes SS), dotless i (U+0131 becomes I),
long s (U+017F becomes S), the apostrophe-n, j-caron and h/t/w/y/a
combining forms (U+0149, U+01F0, U+1E96 to U+1E9A), and the Latin
ligatures ff, fi, fl, ffi, ffl, st (U+FB00 to U+FB06).  Case conversion
never produces digits, whitespace or hyphens, and every remaining
character's uppercase image stays outside all the regex classes, so those
characters are modelled as unchanged: the extractor cannot distinguish
them from their true images. -/
def jsToUpperChar (c : Char) : List Char :=
  if 97 ≤ c.toNat ∧ c.toNat ≤ 122 then [Char.ofNat (c.toNat - 32)]
  else if c.toNat = 0xdf then [Char.ofNat 83, Char.ofNat 83]
  else if c.toNat = 0x131 then [Char.ofNat 73]
  else if c.toNat = 0x17f then [Char.ofNat 83]
  else if c.toNat = 0x149 then [Char.ofNat 0x2bc, Char.ofNat 78]
  else if c.toNat = 0x1f0 then [Char.ofNat 74, Char.ofNat 0x30c]
  else if c.toNat = 0x1e96 then [Char.ofNat 72, Char.ofNat 0x331]
  else if c.toNat = 0x1e97 then [Char.ofNat 84, Char.ofNat 0x308]
  else if c.toNat = 0x1e98 then [Char.ofNat 87, Char.ofNat 0x30a]
  else if c.toNat = 0x1e99 then [Char.ofNat 89, Char.ofNat 0x30a]
  else if c.toNat = 0x1e9a then [Char.ofNat 65, Char.ofNat 0x2be]
  else if c.toNat = 0xfb00 then [Char.ofNat 70, Char.ofNat 70]
  else if c.toNat = 0xfb01 then [Char.ofNat 70, Char.ofNat 73]
  else if c.toNat = 0xfb02 then [Char.ofNat 70, Char.ofNat 76]
  else if c.toNat = 0xfb03 then [Char.ofNat 70, Char.ofNat 70, Char.ofNat 73]
  else if c.toNat = 0xfb04 then [Char.ofNat 70, Char.ofNat 70, Char.ofNat 76]
  else if c.toNat = 0xfb05 then [Char.ofNat 83, Char.ofNat 84]
  else if c.toNat = 0xfb06 then [Char.ofNat 83, Char.ofNat 84]
  else [c]

/-- `query.toUpperCase()` on a character list: concatenation of the
per-character uppercase images. -/
def jsToUpperList : List Char → List Char
  | [] => []
  | c :: t => jsToUpperChar c ++ jsToUpperList t

/-- Consume exactly `k` characters satisfying `p`, returning them and the
remaining input. -/
def takeClass (p : Char → Bool) : Nat → List Char → Option (List Char × List Char)
  | 0, l => some ([], l)
  | _ + 1, [] => none
  | k + 1, c :: t =>
    if p c then (takeClass p k t).map (fun r => (c :: r.1, r.2)) else none

/-- Consume exactly three `[0-9]` characters. -/
def takeDigits3 (l : List Char) : Option (List Char × List Char) :=
  match l with
  | d1 :: d2 :: d3 :: r =>
    if isDigitChar d1 && isDigitChar d2 && isDigitChar d3 then
      some ([d1, d2, d3], r)
    else none
  | _ => none

/-- Greedy `[\s-]?` followed by `[0-9]{3}`: try to consume a separator
first, fall back to matching the digits directly (the regex engine's
backtracking order for an optional greedy atom). -/
def sepThenDigits (sep : Char → Bool) (l : List Char) : Option (List Char × List Char) :=
  match l with
  | c :: t =>
    if sep c then
      match takeDigits3 t with
      | some r => some r
      | none => takeDigits3 l
    else takeDigits3 l
  | [] => none

/-- Attempt the whole course pattern at the current position with a fixed
letter count `k`: `k` characters of `letter`, then `[\s-]?[0-9]{3}`.
Returns the letter part, the digit part and the rest of the input. -/
def tryCount (letter : Char → Bool) (sep : Char → Bool) (k : Nat) (l : List Char) :
    Option ((List Char × List Char) × List Char) :=
  match takeClass letter k l with
  | some (ls, r) =>
    match sepThenDigits sep r with
    | some (ds, r2) => some ((ls, ds), r2)
    | none => none
  | none => none

/-- Attempt the course pattern at the current position, trying 4, 3 and 2
letters in the regex engine's greedy backtracking order. -/
def tryMatchHere (letter : Char → Bool) (sep : Char → Bool) (l : List Char) :
    Option ((List Char × List Char) × List Char) :=
  match tryCount letter sep 4 l with
  | some r => some r
  | none =>
    match tryCount letter sep 3 l with
    | some r => some r
    | none => tryCount letter sep 2 l

/-- `matchAll` scan: at each position try the pattern; on a match, resume
after it, otherwise advance one character.  `fuel` bounds recursion and is
instantiated with the input length. -/
def scanMatches (letter : Char → Bool) (sep : Char → Bool) :
    Nat → List Char → List (List Char × List Char)
  | 0, _ => []
  | _ + 1, [] => []
  | fuel + 1, c :: t =>
    match tryMatchHere letter sep (c :: t) with
    | some (m, rest) => m :: scanMatches letter sep fuel rest
    | none => scanMatches letter sep fuel t

/-- `[...new Set(courses)]`: deduplicate keeping the first occurrence of
each element, preserving order. -/
def dedupFirst : List String → List String :=
  List.foldl (fun acc x => if acc.contains x then acc else acc ++ [x]) []

/-- `extractCoursesAndProfessors(query)`: uppercase the query, collect all
regex matches, format them and deduplicate. -/
def extractCoursesAndProfessors (query : String) : List String :=
  let up := jsToUpperList query.data
  let ms := scanMatches isUpperLetter codeSep up.length up
  let courses := ms.map (fun m => String.mk m.1 ++ " " ++ String.mk m.2)
  dedupFirst courses

/-- Case-insensitive ASCII letter, for the specification-side matcher. -/
def isLetterCI (c : Char) : Bool := isUpperLetter c || isLowerLetter c

/-- Matcher built from the specification text: course codes are matched
case-insensitively in the original text by the pattern "2-4 letters,
optional separator, 3 digits" (the separator class is a parameter), each
match is normalized to `LETTERS SPACE DIGITS` with the letters
uppercased, and duplicates are collapsed keeping first-occurrence order. -/
def specExtract (sep : Char → Bool) (query : String) : List String :=
  let ms := scanMatches isLetterCI sep query.data.length query.data
  let codes := ms.map (fun m => String.mk (m.1.map asciiUpper) ++ " " ++ String.mk m.2)
  dedupFirst codes

/-- Separator class stated by the claim: a space (code point 32) or a
hyphen (code point 45). -/
def claimSep (c : Char) : Bool := c.toNat = 32 || c.toNat = 45

/-! ### The answer pipeline (route.js lines 292-1036)

The route's external collaborators are modelled as oracle parameters:
`db` is the set of table names present in the public schema, `stats` is
the row set produced by the per-course statistics query, `profs` the
result of the professor lookup and scrape, `serCourse`/`serProf` the
`JSON.stringify` serialisations used by the prompt builder, and the
language model is a function of the prompt.  The pipeline itself is
translated from the source; its outputs are a trace of actions (data
fetches, the model call, and the server-sent events it emits). -/

/-- `sessionContext` as returned by the pipeline. -/
structure SessionContext where
  currentCourse : Option String
  activeCourses : List String
deriving DecidableEq

/-- One message of the conversation history (`{content, isUser}`). -/
structure ChatTurn where
  content : String
  isUser : Bool
deriving DecidableEq

/-- Server-sent events emitted on the streaming path, tagged by `type`.
The response-time and cache-statistics metadata are omitted from the
model. -/
inductive Event where
  | status (message : String) (progress : Nat)
  | chunk (content : String)
  | complete (answer : String) (sessionContext : SessionContext)
  | error (message : String)
deriving DecidableEq

/-- Observable steps of one pipeline turn: statistics fetches, professor
fetches, the language-model invocation, and emitted events. -/
inductive Action where
  | fetchStats (course : String)
  | fetchProf (course : String)
  | callLLM (prompt : String)
  | emit (e : Event)
deriving DecidableEq

/-- Per-character model of `String.prototype.toLowerCase` on ASCII. -/
def jsToLower (c : Char) : Char :=
  if 65 ≤ c.toNat && c.toNat ≤ 90 then Char.ofNat (c.toNat + 32) else c

/-- `String.prototype.replace(' ', '')`: remove the first space only. -/
def removeFirstSpace : List Char → List Char
  | [] => []
  | c :: t => if c = ' ' then t else c :: removeFirstSpace t

/-- `course.toLowerCase().replace(' ', '')`: the statistics table name of
a course code. -/
def tableNameOf (course : String) : String :=
  String.mk (removeFirstSpace (course.data.map jsToLower))

/-- `checkMultipleCoursesExist`: the batched `information_schema` query
returns the set of requested table names present in the public schema;
each course maps to whether its table is in that set.  `db` is the
membership predicate of the schema. -/
def checkMultipleCoursesExist (db : String → Bool) (courses : List String) :
    String → Bool :=
  fun course => courses.contains course && db (tableNameOf course)

/-- The `coursesToUse` selection shared by both answer functions: courses
extracted from the query, else the session's active courses, else none. -/
def coursesToUseOf (query : String) (sessionContext : Option SessionContext) :
    List String :=
  let coursesInQuery := extractCoursesAndProfessors query
  if 0 < coursesInQuery.length then coursesInQuery
  else
    match sessionContext with
    | some ctx => if 0 < ctx.activeCourses.length then ctx.activeCourses else []
    | none => []

/-- `invalidCourses`: the courses whose statistics table does not exist. -/
def invalidOf (db : String → Bool) (coursesToUse : List String) : List String :=
  coursesToUse.filter (fun course => !(checkMultipleCoursesExist db coursesToUse course))

/-- `validCourses`: the complement filter used by the source. -/
def validOf (db : String → Bool) (coursesToUse : List String) : List String :=
  coursesToUse.filter (fun course => !((invalidOf db coursesToUse).contains course))

/-- The clarification message of the no-course path. -/
def noCourseMessage : String :=
  "Howdy! Please include a course name in your prompt (ex: CSCE 221) so I can help you better."

/-- The message of the all-invalid path. -/
def allInvalidMessage (invalidCourses : List String) : String :=
  let courseString :=
    if invalidCourses.length = 1 then invalidCourses.headI
    else String.intercalate ", " invalidCourses
  "Howdy! I don\x27t have any data for " ++ courseString ++
    ". This might not be a valid Texas A&M course code, or we haven\x27t loaded this course\x27s data yet. Please check the course code and try again, or ask about a different course."

/-- The message of the partially-invalid path. -/
def partialInvalidMessage (invalidCourses : List String) : String :=
  "Howdy! I don\x27t have any data for " ++ String.intercalate ", " invalidCourses ++
    ". I\x27ll answer based on the other course(s) you mentioned."

/-- The fixed apologetic message of the failure path. -/
def apologyMessage : String :=
  "Whoop! We\x27re having trouble processing your request. Please try again in a few moments."

/-- The first status message of a turn with courses. -/
def foundCoursesMessage (coursesToUse : List String) : String :=
  "Found courses: " ++ String.intercalate ", " coursesToUse ++ ". Checking availability..."

/-- `buildPromptWithMultiCourses`: the grounding prompt, assembled from
the formatted history, the context line, the serialised data maps and the
fixed instruction text.  `serCourse` and `serProf` model `JSON.stringify`
on the two data maps. -/
def buildPromptWithMultiCourses {γ : Type u} {π : Type v}
    (serCourse : List (String × γ) → String) (serProf : List (String × π) → String)
    (query : String) (conversationHistory : List ChatTurn)
    (courseDataMap : List (String × γ)) (profDataMap : List (String × π))
    (sessionContext : SessionContext) : String :=
  let formattedHistory := String.intercalate "\n\n"
    (conversationHistory.map (fun msg =>
      (if msg.isUser then "User: " else "AI: ") ++ msg.content))
  let contextInfo :=
    if 0 < sessionContext.activeCourses.length then
      if sessionContext.activeCourses.length = 1 then
        "\nThe current course in this conversation is: " ++ sessionContext.activeCourses.headI
      else
        "\nThe active courses in this conversation are: " ++
          String.intercalate ", " sessionContext.activeCourses
    else ""
  "You are a helpful Texas A&M course advisor. \n\nPrevious conversation:\n" ++
    formattedHistory ++ "\n" ++ contextInfo ++
    "\n\nCurrent user question: \"" ++ query ++ "\"\n\n" ++
    "USE THE GPA DATA FROM Course information: " ++ serCourse courseDataMap ++
    ", and the RateMyProfessor information: " ++ serProf profDataMap ++
    ", to tailor detailed responses.\n" ++
    "CRITICALLY IMPORTANT: When users ask about the \"easiest\" professor or class:\n" ++
    "1. First compare by average GPA - professors with higher GPAs should typically rank higher\n" ++
    "2. When GPAs are within 0.2 points of each other, use RateMyProfessor ratings to determine the ranking\n" ++
    "3. Present information in conversational, flowing paragraphs rather than lists\n" ++
    "4. Synthesize the GPA data, term information, and RateMyProfessor feedback (ratings, difficulty, tags) into cohesive descriptions\n" ++
    "5. Recommend the professor who offers the best balance of high GPA and positive RateMyProfessor feedback\n\n" ++
    "If the user is comparing multiple courses, provide information about all requested courses.\n" ++
    "Make your response Aggie themed and in a readable format with emojis.\n" ++
    "DO NOT just spit out the data you receive, synthesize and understand the data so that you can form descriptive recommendations for professors/classes.\n" ++
    "Unless asked, DO NOT give any links and keep the answer concise."

/-- Outcome of the streaming model invocation: creating the stream can
fail outright, or the stream yields a list of content deltas and either
finishes or is interrupted by an exception. -/
inductive LlmStreamResult where
  | createFailed
  | streamed (chunks : List String) (interrupted : Bool)

/-- Tail of a streaming turn after the model is invoked: on a failed
stream creation the catch block emits the apologetic `error` event; on a
stream, the writing status is emitted, each non-empty delta is
accumulated into the answer and emitted as a `chunk`, and the turn ends
with the `complete` event carrying the accumulated answer — unless the
stream is interrupted by an exception, in which case the catch block
emits the `error` event instead. -/
def streamingTail (res : LlmStreamResult) (finalCtx : SessionContext) : List Action :=
  match res with
  | .createFailed => [.emit (.error apologyMessage)]
  | .streamed chunks interrupted =>
    [.emit (.status "AI is writing your response..." 80)]
    ++ (chunks.filter (fun s => s ≠ "")).map (fun s => Action.emit (.chunk s))
    ++ (if interrupted then [.emit (.error apologyMessage)]
        else [.emit (.complete (String.join (chunks.filter (fun s => s ≠ ""))) finalCtx)])

/-- The result of the non-streaming `answerWithRag`. -/
structure RagResult where
  answer : String
  sessionContext : SessionContext
deriving DecidableEq

/-- Result of the non-streaming model invocation: the answer on success,
the fixed apologetic message when the call throws; the session context is
the same either way. -/
def ragResultOf (r : Except Unit String) (primaryCourse : String)
    (coursesToUse : List String) : RagResult :=
  match r with
  | .ok answer => ⟨answer, ⟨some primaryCourse, coursesToUse⟩⟩
  | .error _ => ⟨apologyMessage, ⟨some primaryCourse, coursesToUse⟩⟩

/-- `answerWithRagStreaming`: the streaming answer generator, returning
the turn's trace of actions in order. -/
def answerWithRagStreaming {γ : Type u} {π : Type v}
    (db : String → Bool) (stats : String → γ) (profs : γ → π)
    (serCourse : List (String × γ) → String) (serProf : List (String × π) → String)
    (llm : String → LlmStreamResult)
    (query : String) (conversationHistory : List ChatTurn)
    (sessionContext : Option SessionContext) : List Action :=
  let coursesToUse := coursesToUseOf query sessionContext
  if coursesToUse.length = 0 then
    [.emit (.complete noCourseMessage ⟨none, []⟩)]
  else
    let statusFound := Action.emit (.status (foundCoursesMessage coursesToUse) 10)
    let invalidCourses := invalidOf db coursesToUse
    if 0 < invalidCourses.length then
      if invalidCourses.length = coursesToUse.length then
        [statusFound,
         .emit (.complete (allInvalidMessage invalidCourses)
           ⟨none, coursesToUse.filter (fun course => !(invalidCourses.contains course))⟩)]
      else
        let validCourses := validOf db coursesToUse
        [statusFound,
         .emit (.complete (partialInvalidMessage invalidCourses)
           ⟨some validCourses.headI, validCourses⟩)]
    else
      let primaryCourse := coursesToUse.headI
      let courseData := coursesToUse.map (fun course => (course, stats course))
      let profData := coursesToUse.map (fun course => (course, profs (stats course)))
      let prompt := buildPromptWithMultiCourses serCourse serProf query
        conversationHistory courseData profData ⟨some primaryCourse, coursesToUse⟩
      let finalCtx : SessionContext := ⟨some primaryCourse, coursesToUse⟩
      [statusFound, .emit (.status "Collecting course and professor data..." 20)]
      ++ coursesToUse.map Action.fetchStats
      ++ [.emit (.status "Course data collected. Gathering professor reviews..." 40)]
      ++ coursesToUse.map Action.fetchProf
      ++ [.emit (.status "Generating personalized recommendation..." 70),
          .callLLM prompt]
      ++ streamingTail (llm prompt) finalCtx

/-- `answerWithRag`: the non-streaming answer generator.  The model call
either returns the answer text or throws; the `catch` block converts a
throw into the fixed apologetic message.  Returns the result together
with the trace of fetch/model actions. -/
def answerWithRag {γ : Type u} {π : Type v}
    (db : String → Bool) (stats : String → γ) (profs : γ → π)
    (serCourse : List (String × γ) → String) (serProf : List (String × π) → String)
    (llmOnce : String → Except Unit String)
    (query : String) (conversationHistory : List ChatTurn)
    (sessionContext : Option SessionContext) : RagResult × List Action :=
  let coursesToUse := coursesToUseOf query sessionContext
  if coursesToUse.length = 0 then
    (⟨noCourseMessage, ⟨none, []⟩⟩, [])
  else
    let invalidCourses := invalidOf db coursesToUse
    if 0 < invalidCourses.length then
      if invalidCourses.length = coursesToUse.length then
        (⟨allInvalidMessage invalidCourses,
          ⟨none, coursesToUse.filter (fun course => !(invalidCourses.contains course))⟩⟩, [])
      else
        let validCourses := validOf db coursesToUse
        (⟨partialInvalidMessage invalidCourses,
          ⟨some validCourses.headI, validCourses⟩⟩, [])
    else
      let primaryCourse := coursesToUse.headI
      let courseData := coursesToUse.map (fun course => (course, stats course))
      let profData := coursesToUse.map (fun course => (course, profs (stats course)))
      let prompt := buildPromptWithMultiCourses serCourse serProf query
        conversationHistory courseData profData ⟨some primaryCourse, coursesToUse⟩
      let trace := coursesToUse.map Action.fetchStats
        ++ coursesToUse.map Action.fetchProf ++ [Action.callLLM prompt]
      (ragResultOf (llmOnce prompt) primaryCourse coursesToUse, trace)

/-- The streaming branch of `POST`: enqueue the initial status event, then
run `answerWithRagStreaming` with the defaulted session context.  `none`
is returned for a missing/empty query (the `400` response, no stream). -/
def postStreaming {γ : Type u} {π : Type v}
    (db : String → Bool) (stats : String → γ) (profs : γ → π)
    (serCourse : List (String × γ) → String) (serProf : List (String × π) → String)
    (llm : String → LlmStreamResult)
    (query : String) (conversationHistory : List ChatTurn)
    (sessionContext : Option SessionContext) : Option (List Action) :=
  if query = "" then none
  else
    some (.emit (.status "Starting data collection..." 0) ::
      answerWithRagStreaming db stats profs serCourse serProf llm query
        conversationHistory (some (sessionContext.getD ⟨none, []⟩)))

/-- The events of a trace, in emission order. -/
def eventsOf (actions : List Action) : List Event :=
  actions.filterMap (fun a => match a with | .emit e => some e | _ => none)

/-- Recognise a `status` event. -/
def isStatus : Event → Bool
  | .status _ _ => true
  | _ => false

/-- Recognise a terminal (`complete` or `error`) event. -/
def isTerminal : Event → Bool
  | .complete _ _ => true
  | .error _ => true
  | _ => false

/-- The contents of the `chunk` events of a stream, in order. -/
def chunkContents (events : List Event) : List String :=
  events.filterMap (fun e => match e with | .chunk s => some s | _ => none)

/-- Work actions (data fetches and model calls), as opposed to emissions. -/
def isWorkAction : Action → Bool
  | .fetchStats _ => true
  | .fetchProf _ => true
  | .callLLM _ => true
  | .emit _ => false

/-- The session-context invariant of claim C9: `currentCourse` is `none`
exactly on an empty `activeCourses`, and otherwise the first active
course. -/
def ctxWellFormed (ctx : SessionContext) : Bool :=
  match ctx.activeCourses with
  | [] => ctx.currentCourse == none
  | x :: _ => ctx.currentCourse == some x

/-- The shape claimed for a streaming turn (amended): at least one
status event, exactly one terminal event which is last, and any
`complete` event's answer equal to the concatenation of the chunk
contents whenever chunks were emitted (turns that terminate before
generation emit a `complete` with a fixed message and no chunks). -/
def wellShapedStream (es : List Event) : Prop :=
  0 < (es.filter isStatus).length ∧
  (es.filter isTerminal).length = 1 ∧
  (∃ t, es.getLast? = some t ∧ isTerminal t = true) ∧
  (∀ ans c, Event.complete ans c ∈ es →
    chunkContents es = [] ∨ ans = String.join (chunkContents es))

/-! ### Lemmas about the `Map` model -/

theorem mapKeys_nil : mapKeys ([] : List (α × δ)) = [] := rfl

theorem mapKeys_cons (a : α) (b : δ) (t : List (α × δ)) :
    mapKeys ((a, b) :: t) = a :: mapKeys t := rfl

theorem mapKeys_append (l1 l2 : List (α × δ)) :
    mapKeys (l1 ++ l2) = mapKeys l1 ++ mapKeys l2 := by
  simp [mapKeys]

theorem mapKeys_map_pair (f : α → δ) (l : List α) :
    mapKeys (l.map (fun i => (i, f i))) = l := by
  induction l with
  | nil => rfl
  | cons a t ih => simpa [mapKeys] using ih

theorem mapLookup_mapSet_self [DecidableEq α] (l : List (α × δ)) (k : α) (v : δ) :
    mapLookup (mapSet l k v) k = some v := by
  induction l with
  | nil => simp [mapSet, mapLookup]
  | cons h t ih =>
    obtain ⟨a, b⟩ := h
    by_cases hak : a = k
    · simp [mapSet, hak, mapLookup]
    · simp [mapSet, hak, mapLookup, ih]

theorem mapKeys_mapSet_of_mem [DecidableEq α] (l : List (α × δ)) (k : α) (v : δ)
    (h : k ∈ mapKeys l) : mapKeys (mapSet l k v) = mapKeys l := by
  induction l with
  | nil => simp [mapKeys] at h
  | cons hd t ih =>
    obtain ⟨a, b⟩ := hd
    by_cases hak : a = k
    · subst hak; simp [mapSet, mapKeys_cons]
    · have hk : k ∈ mapKeys t := by
        rw [mapKeys_cons, List.mem_cons] at h
        exact h.resolve_left (fun he => hak he.symm)
      simp only [mapSet, if_neg hak, mapKeys_cons]
      rw [ih hk]

theorem mapSet_of_not_mem [DecidableEq α] (l : List (α × δ)) (k : α) (v : δ)
    (h : k ∉ mapKeys l) : mapSet l k v = l ++ [(k, v)] := by
  induction l with
  | nil => simp [mapSet]
  | cons hd t ih =>
    obtain ⟨a, b⟩ := hd
    rw [mapKeys_cons, List.mem_cons] at h
    push_neg at h
    simp [mapSet, Ne.symm h.1, ih h.2]

theorem length_mapSet_of_mem [DecidableEq α] (l : List (α × δ)) (k : α) (v : δ)
    (h : k ∈ mapKeys l) : (mapSet l k v).length = l.length := by
  have h1 : (mapKeys (mapSet l k v)).length = (mapKeys l).length :=
    congrArg List.length (mapKeys_mapSet_of_mem l k v h)
  simpa [mapKeys] using h1

theorem length_mapSet_le [DecidableEq α] (l : List (α × δ)) (k : α) (v : δ) :
    (mapSet l k v).length ≤ l.length + 1 := by
  by_cases h : k ∈ mapKeys l
  · rw [length_mapSet_of_mem l k v h]; omega
  · rw [mapSet_of_not_mem l k v h]; simp

theorem length_mapDelete_of_mem [DecidableEq α] (l : List (α × δ)) (k : α)
    (h : k ∈ mapKeys l) : (mapDelete l k).length + 1 = l.length := by
  induction l with
  | nil => simp [mapKeys] at h
  | cons hd t ih =>
    obtain ⟨a, b⟩ := hd
    by_cases hak : a = k
    · simp [mapDelete, hak]
    · have hk : k ∈ mapKeys t := by
        rw [mapKeys_cons, List.mem_cons] at h
        exact h.resolve_left (fun he => hak he.symm)
      simp only [mapDelete, if_neg hak, List.length_cons]
      rw [← ih hk]

theorem length_mapDelete_le [DecidableEq α] (l : List (α × δ)) (k : α) :
    (mapDelete l k).length ≤ l.length := by
  induction l with
  | nil => simp [mapDelete]
  | cons hd t ih =>
    obtain ⟨a, b⟩ := hd
    by_cases hak : a = k
    · simp only [mapDelete, if_pos hak, List.length_cons]; omega
    · simp only [mapDelete, if_neg hak, List.length_cons]; omega

theorem mapKeys_mapDelete_not_mem [DecidableEq α] (l : List (α × δ)) (k : α)
    (h : (mapKeys l).Nodup) : k ∉ mapKeys (mapDelete l k) := by
  induction l with
  | nil => simp [mapDelete, mapKeys]
  | cons hd t ih =>
    obtain ⟨a, b⟩ := hd
    rw [mapKeys_cons, List.nodup_cons] at h
    by_cases hak : a = k
    · subst hak
      simpa [mapDelete] using h.1
    · simp only [mapDelete, if_neg hak, mapKeys_cons, List.mem_cons]
      push_neg
      exact ⟨fun he => hak he.symm, ih h.2⟩

theorem mapLookup_eq_none_of_not_mem [DecidableEq α] (l : List (α × δ)) (k : α)
    (h : k ∉ mapKeys l) : mapLookup l k = none := by
  induction l with
  | nil => simp [mapLookup]
  | cons hd t ih =>
    obtain ⟨a, b⟩ := hd
    rw [mapKeys_cons, List.mem_cons] at h
    push_neg at h
    simp [mapLookup, Ne.symm h.1, ih h.2]

theorem mem_mapKeys_of_lookup [DecidableEq α] (l : List (α × δ)) (k : α) (v : δ)
    (h : mapLookup l k = some v) : k ∈ mapKeys l := by
  by_contra hk
  rw [mapLookup_eq_none_of_not_mem l k hk] at h
  exact Option.noConfusion h

/-! ### Claim theorems: the review cache -/

/-- C7: `put(id, record)` followed immediately by `get(id)` (same
`Date.now()` value, no intervening operation) returns `record`
unchanged. -/
theorem cache_put_get_roundtrip [DecidableEq α] (c : RmpCache α δ) (id : α)
    (record : δ) (t : Int) :
    (getCachedRmpData (setCachedRmpData c id record t) id t).1 = some record := by
  unfold getCachedRmpData setCachedRmpData
  rw [mapLookup_mapSet_self]
  simp [CACHE_DURATION]

/-- C6: an entry inserted by `put` at time `T` is absent from `get` at
any strictly later time than `T + CACHE_DURATION`, with no intervening
`put` on the id. -/
theorem cache_expiry_after_ttl [DecidableEq α] (c : RmpCache α δ) (id : α)
    (record : δ) (T now : Int) (h : T + CACHE_DURATION < now) :
    (getCachedRmpData (setCachedRmpData c id record T) id now).1 = none := by
  unfold getCachedRmpData setCachedRmpData
  rw [mapLookup_mapSet_self]
  have : ¬ (now - T < CACHE_DURATION) := by omega
  simp [this]

/-- Witness for C6 at a concrete input: the empty cache, one `put` at
time 0 and a `get` one millisecond after the TTL. -/
theorem cache_expiry_after_ttl_witness :
    (0 : Int) + CACHE_DURATION < 86400001 ∧
      (getCachedRmpData (setCachedRmpData ([] : RmpCache Nat Unit) 0 () 0) 0 86400001).1
        = none :=
  ⟨by decide, cache_expiry_after_ttl [] 0 () 0 86400001 (by decide)⟩

/-- C5 counterexample: a single entry inserted at time 0 is still stored
at time `CACHE_DURATION + 1` (one millisecond past its TTL): the cache
state is unchanged by the passage of time, and `getCacheStats` at that
time reports one stored, expired entry.  This refutes the invariant that
every stored entry's age is at most `CACHE_DURATION`: expired entries
linger until the next access to their id. -/
theorem expired_entry_lingers_cex :
    setCachedRmpData ([] : RmpCache Nat Unit) 0 () 0 = [(0, ⟨(), 0⟩)] ∧
    CACHE_DURATION < 86400001 - (0 : Int) ∧
    (getCacheStats (setCachedRmpData ([] : RmpCache Nat Unit) 0 () 0) 86400001).size = 1 ∧
    (getCacheStats (setCachedRmpData ([] : RmpCache Nat Unit) 0 () 0) 86400001).expired = 1 := by
  decide

/-- C5 amended: an entry whose age has reached `CACHE_DURATION` may still
be stored; it is treated as absent by `get`, which also deletes it.  (No
other operation removes expired entries; they are evicted otherwise only
by the LRU rule.) -/
theorem expired_entry_absent_and_removed_on_get [DecidableEq α]
    (c : RmpCache α δ) (id : α) (e : CacheEntry δ) (now : Int)
    (hfound : mapLookup c id = some e)
    (hexp : CACHE_DURATION ≤ now - e.timestamp) :
    (getCachedRmpData c id now).1 = none ∧
    (getCachedRmpData c id now).2 = mapDelete c id := by
  unfold getCachedRmpData
  rw [hfound]
  have hnot : ¬ (now - e.timestamp < CACHE_DURATION) := by omega
  simp [hnot]

/-- Witness for the amended C5 at a concrete input. -/
theorem expired_entry_absent_and_removed_on_get_witness :
    mapLookup ([(0, ⟨(), 0⟩)] : RmpCache Nat Unit) 0 = some ⟨(), 0⟩ ∧
    CACHE_DURATION ≤ 86400000 - (0 : Int) ∧
    ((getCachedRmpData ([(0, ⟨(), 0⟩)] : RmpCache Nat Unit) 0 86400000).1 = none ∧
      (getCachedRmpData ([(0, ⟨(), 0⟩)] : RmpCache Nat Unit) 0 86400000).2 =
        mapDelete [(0, ⟨(), 0⟩)] 0) :=
  ⟨by decide, by decide,
    expired_entry_absent_and_removed_on_get [(0, ⟨(), 0⟩)] 0 ⟨(), 0⟩ 86400000
      (by decide) (by decide)⟩

/-- C4 counterexample: with entries for ids 0 and 1 inserted in that
order, overwriting id 0 by `put` leaves the iteration (eviction) order
`[0, 1]` — id 0 is still in the least-recently-used position — whereas a
`get` hit on id 0 yields order `[1, 0]`.  `Map.set` on an existing key
does not move it; only the timestamp is reset.  This refutes the claim
that a `put` on an existing id promotes it to most-recently-used exactly
as a `get` hit does. -/
theorem put_overwrite_no_promotion_cex :
    mapKeys (setCachedRmpData (setCachedRmpData
      (setCachedRmpData ([] : RmpCache Nat Unit) 0 () 5) 1 () 5) 0 () 9) = [0, 1] ∧
    mapKeys ((getCachedRmpData (setCachedRmpData
      (setCachedRmpData ([] : RmpCache Nat Unit) 0 () 5) 1 () 5) 0 9).2) = [1, 0] ∧
    ([0, 1] : List Nat) ≠ [1, 0] ∧
    mapLookup (setCachedRmpData (setCachedRmpData
      (setCachedRmpData ([] : RmpCache Nat Unit) 0 () 5) 1 () 5) 0 () 9) 0
      = some ⟨(), 9⟩ := by
  decide

/-- C4 amended: for an id already present in a cache below capacity, a
`put` on that id overwrites the record and resets its age (the stored
timestamp becomes the current time), but leaves the entry's position in
the recency order unchanged; it is not promoted to most-recently-used
(unlike a `get` hit). -/
theorem put_overwrite_resets_age_keeps_order [DecidableEq α]
    (c : RmpCache α δ) (id : α) (record : δ) (t : Int)
    (hmem : id ∈ mapKeys c) (hsize : c.length < MAX_CACHE_SIZE) :
    mapKeys (setCachedRmpData c id record t) = mapKeys c ∧
    mapLookup (setCachedRmpData c id record t) id = some ⟨record, t⟩ := by
  unfold setCachedRmpData
  have hcap : ¬ (MAX_CACHE_SIZE ≤ c.length) := by omega
  rw [if_neg hcap]
  exact ⟨mapKeys_mapSet_of_mem c id _ hmem, mapLookup_mapSet_self c id _⟩

/-- Witness for the amended C4 at a concrete input. -/
theorem put_overwrite_resets_age_keeps_order_witness :
    (0 : Nat) ∈ mapKeys ([(0, ⟨(), 0⟩), (1, ⟨(), 0⟩)] : RmpCache Nat Unit) ∧
    ([(0, ⟨(), 0⟩), (1, ⟨(), 0⟩)] : RmpCache Nat Unit).length < MAX_CACHE_SIZE ∧
    (mapKeys (setCachedRmpData ([(0, ⟨(), 0⟩), (1, ⟨(), 0⟩)] : RmpCache Nat Unit) 0 () 9)
        = mapKeys ([(0, ⟨(), 0⟩), (1, ⟨(), 0⟩)] : RmpCache Nat Unit) ∧
      mapLookup (setCachedRmpData ([(0, ⟨(), 0⟩), (1, ⟨(), 0⟩)] : RmpCache Nat Unit) 0 () 9) 0
        = some ⟨(), 9⟩) :=
  ⟨by decide, by decide,
    put_overwrite_resets_age_keeps_order [(0, ⟨(), 0⟩), (1, ⟨(), 0⟩)] 0 () 9
      (by decide) (by decide)⟩

theorem length_setCachedRmpData_le [DecidableEq α] (c : RmpCache α δ) (id : α)
    (d : δ) (t : Int) (h : c.length ≤ MAX_CACHE_SIZE) :
    (setCachedRmpData c id d t).length ≤ MAX_CACHE_SIZE := by
  unfold setCachedRmpData
  by_cases hcap : MAX_CACHE_SIZE ≤ c.length
  · rw [if_pos hcap]
    cases c with
    | nil =>
      exfalso
      have h0 : ¬ (MAX_CACHE_SIZE ≤ 0) := by decide
      exact h0 (by simpa using hcap)
    | cons hd t' =>
      obtain ⟨k, e⟩ := hd
      have hdel : mapDelete ((k, e) :: t') k = t' := by simp [mapDelete]
      simp only [List.head?_cons, hdel]
      have h1 := length_mapSet_le t' id (⟨d, t⟩ : CacheEntry δ)
      have h2 : ((k, e) :: t').length = t'.length + 1 := by simp
      omega
  · rw [if_neg hcap]
    have h1 := length_mapSet_le c id (⟨d, t⟩ : CacheEntry δ)
    omega

theorem length_getCachedRmpData_le [DecidableEq α] (c : RmpCache α δ) (id : α)
    (now : Int) : ((getCachedRmpData c id now).2).length ≤ c.length := by
  unfold getCachedRmpData
  rcases hl : mapLookup c id with _ | e
  · simp
  · have hmem := mem_mapKeys_of_lookup c id e hl
    have hdel := length_mapDelete_of_mem c id hmem
    have hset := length_mapSet_le (mapDelete c id) id e
    by_cases hfresh : now - e.timestamp < CACHE_DURATION
    · simp only [hfresh, if_true]
      omega
    · simp only [hfresh, if_false]
      omega

theorem cacheStep_length_le [DecidableEq α] (c : RmpCache α δ) (op : CacheOp α δ)
    (h : c.length ≤ MAX_CACHE_SIZE) : (cacheStep c op).length ≤ MAX_CACHE_SIZE := by
  cases op with
  | put id data now => exact length_setCachedRmpData_le c id data now h
  | get id now => exact le_trans (length_getCachedRmpData_le c id now) h

theorem foldl_cacheStep_length_le [DecidableEq α] (ops : List (CacheOp α δ))
    (c : RmpCache α δ) (h : c.length ≤ MAX_CACHE_SIZE) :
    (ops.foldl cacheStep c).length ≤ MAX_CACHE_SIZE := by
  induction ops generalizing c with
  | nil => simpa using h
  | cons op rest ih =>
    simp only [List.foldl_cons]
    exact ih (cacheStep c op) (cacheStep_length_le c op h)

theorem runPuts_fresh_aux [DecidableEq α] (ids : List α) (data : α → δ)
    (time : α → Int) (c : RmpCache α δ)
    (hfresh : ∀ i ∈ ids, i ∉ mapKeys c) (hnd : ids.Nodup)
    (hlen : c.length + ids.length ≤ MAX_CACHE_SIZE) :
    ids.foldl (fun acc i => setCachedRmpData acc i (data i) (time i)) c =
      c ++ ids.map (fun i => (i, (⟨data i, time i⟩ : CacheEntry δ))) := by
  induction ids generalizing c with
  | nil => simp
  | cons i rest ih =>
    simp only [List.foldl_cons, List.map_cons]
    have hcap : ¬ (MAX_CACHE_SIZE ≤ c.length) := by
      simp only [List.length_cons] at hlen
      omega
    have hstep : setCachedRmpData c i (data i) (time i) =
        c ++ [(i, (⟨data i, time i⟩ : CacheEntry δ))] := by
      unfold setCachedRmpData
      rw [if_neg hcap]
      exact mapSet_of_not_mem c i _ (hfresh i (by simp))
    rw [hstep]
    rw [List.nodup_cons] at hnd
    have hfresh' : ∀ j ∈ rest, j ∉ mapKeys (c ++ [(i, (⟨data i, time i⟩ : CacheEntry δ))]) := by
      intro j hj
      rw [mapKeys_append]
      simp only [List.mem_append]
      push_neg
      refine ⟨hfresh j (by simp [hj]), ?_⟩
      simp only [mapKeys, List.map_cons, List.map_nil, List.mem_singleton]
      exact fun he => hnd.1 (he ▸ hj)
    have hlen' : (c ++ [(i, (⟨data i, time i⟩ : CacheEntry δ))]).length + rest.length
        ≤ MAX_CACHE_SIZE := by
      simp only [List.length_append, List.length_cons, List.length_nil] at hlen ⊢
      omega
    rw [ih _ hfresh' hnd.2 hlen']
    simp

theorem setCachedRmpData_at_capacity_fresh [DecidableEq α] (c : RmpCache α δ)
    (id : α) (d : δ) (t : Int) (hlen : c.length = MAX_CACHE_SIZE)
    (hfresh : id ∉ mapKeys c) :
    setCachedRmpData c id d t = c.tail ++ [(id, (⟨d, t⟩ : CacheEntry δ))] := by
  unfold setCachedRmpData
  rw [if_pos (le_of_eq hlen.symm)]
  cases c with
  | nil =>
    exfalso
    have h0 : ¬ ((0 : Nat) = MAX_CACHE_SIZE) := by decide
    exact h0 (by simpa using hlen)
  | cons hd t' =>
    obtain ⟨k, e⟩ := hd
    have hdel : mapDelete ((k, e) :: t') k = t' := by simp [mapDelete]
    simp only [List.head?_cons, hdel, List.tail_cons]
    refine mapSet_of_not_mem t' id _ ?_
    rw [mapKeys_cons, List.mem_cons] at hfresh
    push_neg at hfresh
    exact hfresh.2

/-- C3: (a) after any sequence of `put` and `get` operations from the
empty cache the number of stored entries is at most `MAX_CACHE_SIZE`;
(b) `MAX_CACHE_SIZE + 1` puts with pairwise-distinct ids from the empty
cache leave exactly `MAX_CACHE_SIZE` entries, the first id — the
least-recently-used one, never promoted by a `get` — having been evicted
and the rest surviving in insertion order. -/
theorem cache_capacity_invariant [DecidableEq α] :
    (∀ ops : List (CacheOp α δ), (runCacheOps ops).length ≤ MAX_CACHE_SIZE) ∧
    (∀ (ids : List α) (data : α → δ) (time : α → Int), ids.Nodup →
      ids.length = MAX_CACHE_SIZE + 1 →
      (runPuts ids data time).length = MAX_CACHE_SIZE ∧
      mapKeys (runPuts ids data time) = ids.tail) := by
  constructor
  · intro ops
    exact foldl_cacheStep_length_le ops [] (by simp)
  · intro ids data time hnd hlen
    obtain ⟨a, ft, x, hids⟩ : ∃ a ft x, ids = (a :: ft) ++ [x] := by
      have hne : ids ≠ [] := by
        intro h
        rw [h] at hlen
        simp [MAX_CACHE_SIZE] at hlen
      obtain ⟨front, x, hfx⟩ : ∃ front x, ids = front ++ [x] :=
        ⟨ids.dropLast, ids.getLast hne, (List.dropLast_append_getLast hne).symm⟩
      cases hfr : front with
      | nil =>
        exfalso
        rw [hfx, hfr] at hlen
        exact (by decide : ¬ ((1 : Nat) = MAX_CACHE_SIZE + 1)) (by simpa using hlen)
      | cons a ft => exact ⟨a, ft, x, by rw [hfx, hfr]⟩
    subst hids
    have hfrontlen : (a :: ft).length = MAX_CACHE_SIZE := by
      simp only [List.length_append, List.length_cons, List.length_nil] at hlen
      simp only [List.length_cons]
      omega
    have hndf : ((a :: ft) ++ [x]).Nodup := hnd
    have hfrontnd : (a :: ft).Nodup := (List.nodup_append.mp hndf).1
    have hxfront : x ∉ (a :: ft) := by
      have hdisj := (List.nodup_append.mp hndf).2.2
      intro hmem
      exact hdisj hmem (by simp)
    have hfront : List.foldl (fun acc i => setCachedRmpData acc i (data i) (time i))
        ([] : RmpCache α δ) (a :: ft) =
        (a :: ft).map (fun i => (i, ⟨data i, time i⟩)) := by
      have h := runPuts_fresh_aux (a :: ft) data time []
        (by simp [mapKeys]) hfrontnd (by simp [hfrontlen])
      simpa using h
    have hrun : runPuts ((a :: ft) ++ [x]) data time =
        setCachedRmpData ((a :: ft).map (fun i => (i, ⟨data i, time i⟩))) x
          (data x) (time x) := by
      unfold runPuts
      rw [List.foldl_append, hfront]
      rfl
    have hmaplen : ((a :: ft).map (fun i => (i, (⟨data i, time i⟩ : CacheEntry δ)))).length
        = MAX_CACHE_SIZE := by
      rw [List.length_map]
      exact hfrontlen
    have hxfresh : x ∉ mapKeys ((a :: ft).map (fun i => (i, (⟨data i, time i⟩ : CacheEntry δ)))) := by
      rw [mapKeys_map_pair]
      exact hxfront
    have hfin := setCachedRmpData_at_capacity_fresh
      ((a :: ft).map (fun i => (i, ⟨data i, time i⟩))) x (data x) (time x) hmaplen hxfresh
    rw [hrun, hfin]
    simp only [List.map_cons, List.tail_cons]
    constructor
    · simp only [List.length_append, List.length_map, List.length_cons, List.length_nil]
      simp only [List.length_cons] at hfrontlen
      omega
    · rw [mapKeys_append, mapKeys_map_pair]
      rfl

/-- Witness for C3 at a concrete input: `MAX_CACHE_SIZE + 1` puts of the
distinct ids `0, 1, ..., MAX_CACHE_SIZE`. -/
theorem cache_capacity_invariant_witness :
    (List.range (MAX_CACHE_SIZE + 1)).Nodup ∧
    (List.range (MAX_CACHE_SIZE + 1)).length = MAX_CACHE_SIZE + 1 ∧
    ((runPuts (List.range (MAX_CACHE_SIZE + 1)) (fun _ => ()) (fun _ => (0 : Int))).length
        = MAX_CACHE_SIZE ∧
      mapKeys (runPuts (List.range (MAX_CACHE_SIZE + 1)) (fun _ => ()) (fun _ => (0 : Int)))
        = (List.range (MAX_CACHE_SIZE + 1)).tail) :=
  ⟨List.nodup_range _, List.length_range _,
    (cache_capacity_invariant (α := Nat) (δ := Unit)).2 (List.range (MAX_CACHE_SIZE + 1))
      (fun _ => ()) (fun _ => (0 : Int)) (List.nodup_range _) (List.length_range _)⟩

/-- C10: a `put` on an id already present while the cache is exactly at
capacity first evicts the entry in least-recently-used position (the
first key), even though the overwrite itself does not grow the map.  When
the LRU entry is a different id, that (possibly unexpired) entry is
removed and the cache is left one below capacity; when the overwritten id
is itself the LRU entry, it is deleted and re-appended, leaving the cache
at capacity with the id promoted to most-recently-used. -/
theorem put_at_capacity_on_existing_id [DecidableEq α] (c : RmpCache α δ)
    (id : α) (record : δ) (t : Int) (k : α) (e : CacheEntry δ)
    (hsize : c.length = MAX_CACHE_SIZE) (hnd : (mapKeys c).Nodup)
    (hmem : id ∈ mapKeys c) (hhead : c.head? = some (k, e)) :
    (setCachedRmpData c id record t).length =
      (if k = id then MAX_CACHE_SIZE else MAX_CACHE_SIZE - 1) ∧
    (k ≠ id → k ∉ mapKeys (setCachedRmpData c id record t)) ∧
    (k = id → mapKeys (setCachedRmpData c id record t) = (mapKeys c).tail ++ [id]) := by
  cases c with
  | nil => exact absurd hhead (by simp)
  | cons hd t2 =>
    have hhd : hd = (k, e) := by simpa using hhead
    subst hhd
    rw [mapKeys_cons, List.nodup_cons] at hnd
    have hstep : setCachedRmpData ((k, e) :: t2) id record t =
        mapSet t2 id ⟨record, t⟩ := by
      unfold setCachedRmpData
      rw [if_pos (le_of_eq hsize.symm)]
      have hdel : mapDelete ((k, e) :: t2) k = t2 := by simp [mapDelete]
      simp only [List.head?_cons, hdel]
    rw [hstep]
    have hlent2 : t2.length + 1 = MAX_CACHE_SIZE := by simpa using hsize
    by_cases hki : k = id
    · subst hki
      have hfresh : k ∉ mapKeys t2 := hnd.1
      rw [mapSet_of_not_mem t2 k _ hfresh]
      refine ⟨?_, fun h => absurd rfl h, fun _ => ?_⟩
      · simp only [eq_self_iff_true, if_true, List.length_append, List.length_cons,
          List.length_nil]
        omega
      · rw [mapKeys_append, mapKeys_cons]
        simp [mapKeys]
    · have hmem2 : id ∈ mapKeys t2 := by
        rw [mapKeys_cons, List.mem_cons] at hmem
        exact hmem.resolve_left (fun he2 => hki he2.symm)
      refine ⟨?_, fun _ => ?_, fun h => absurd h hki⟩
      · rw [if_neg hki, length_mapSet_of_mem t2 id _ hmem2]
        omega
      · rw [mapKeys_mapSet_of_mem t2 id _ hmem2]
        exact hnd.1

/-- Witness for C10 at a concrete input: a full cache of ids
`0, ..., 1499` and a `put` on id 1 (whose LRU entry is id 0). -/
theorem put_at_capacity_on_existing_id_witness :
    ((List.range MAX_CACHE_SIZE).map
        (fun i => (i, (⟨(), 0⟩ : CacheEntry Unit)))).length = MAX_CACHE_SIZE ∧
    (mapKeys ((List.range MAX_CACHE_SIZE).map
        (fun i => (i, (⟨(), 0⟩ : CacheEntry Unit))))).Nodup ∧
    (1 : Nat) ∈ mapKeys ((List.range MAX_CACHE_SIZE).map
        (fun i => (i, (⟨(), 0⟩ : CacheEntry Unit)))) ∧
    ((List.range MAX_CACHE_SIZE).map
        (fun i => (i, (⟨(), 0⟩ : CacheEntry Unit)))).head? = some (0, ⟨(), 0⟩) ∧
    ((setCachedRmpData ((List.range MAX_CACHE_SIZE).map
          (fun i => (i, (⟨(), 0⟩ : CacheEntry Unit)))) 1 () 7).length =
        (if (0 : Nat) = 1 then MAX_CACHE_SIZE else MAX_CACHE_SIZE - 1) ∧
      ((0 : Nat) ≠ 1 → (0 : Nat) ∉ mapKeys (setCachedRmpData ((List.range MAX_CACHE_SIZE).map
          (fun i => (i, (⟨(), 0⟩ : CacheEntry Unit)))) 1 () 7)) ∧
      ((0 : Nat) = 1 → mapKeys (setCachedRmpData ((List.range MAX_CACHE_SIZE).map
          (fun i => (i, (⟨(), 0⟩ : CacheEntry Unit)))) 1 () 7) =
        (mapKeys ((List.range MAX_CACHE_SIZE).map
          (fun i => (i, (⟨(), 0⟩ : CacheEntry Unit))))).tail ++ [1])) := by
  have hkeys : mapKeys ((List.range MAX_CACHE_SIZE).map
      (fun i => (i, (⟨(), 0⟩ : CacheEntry Unit)))) = List.range MAX_CACHE_SIZE :=
    mapKeys_map_pair _ _
  have hlen : ((List.range MAX_CACHE_SIZE).map
      (fun i => (i, (⟨(), 0⟩ : CacheEntry Unit)))).length = MAX_CACHE_SIZE := by
    simp
  have hnd : (mapKeys ((List.range MAX_CACHE_SIZE).map
      (fun i => (i, (⟨(), 0⟩ : CacheEntry Unit))))).Nodup := by
    rw [hkeys]; exact List.nodup_range _
  have hmem : (1 : Nat) ∈ mapKeys ((List.range MAX_CACHE_SIZE).map
      (fun i => (i, (⟨(), 0⟩ : CacheEntry Unit)))) := by
    rw [hkeys, List.mem_range]
    decide
  have hhead : ((List.range MAX_CACHE_SIZE).map
      (fun i => (i, (⟨(), 0⟩ : CacheEntry Unit)))).head? = some (0, ⟨(), 0⟩) := by
    rw [List.head?_map]
    have : (List.range MAX_CACHE_SIZE).head? = some 0 := by
      have h1 : MAX_CACHE_SIZE = 1499 + 1 := by decide
      rw [h1, List.range_succ_eq_map]
      simp
    rw [this]
    rfl
  exact ⟨hlen, hnd, hmem, hhead,
    put_at_capacity_on_existing_id _ 1 () 7 0 ⟨(), 0⟩ hlen hnd hmem hhead⟩

/-! ### Claim theorems: the course-code extractor -/

theorem bool_eq_of_iff {a b : Bool} (h : a = true ↔ b = true) : a = b := by
  cases a <;> cases b <;> simp_all

theorem toNat_ofNat_of_valid (n : Nat) (h : n.isValidChar) :
    (Char.ofNat n).toNat = n := by
  rw [Char.ofNat, dif_pos h]
  simp [Char.ofNatAux, Char.toNat, UInt32.ofNat', BitVec.ofNatLt, UInt32.toNat]

theorem toNat_asciiUpper (c : Char) :
    (asciiUpper c).toNat =
      if 97 ≤ c.toNat ∧ c.toNat ≤ 122 then c.toNat - 32 else c.toNat := by
  unfold asciiUpper
  by_cases h : 97 ≤ c.toNat ∧ c.toNat ≤ 122
  · rw [if_pos (by simp [h.1, h.2]), if_pos h]
    exact toNat_ofNat_of_valid _ (Or.inl (by omega))
  · rw [if_neg (by simpa using h), if_neg h]

theorem asciiUpper_eq_self (c : Char) (h : ¬ (97 ≤ c.toNat ∧ c.toNat ≤ 122)) :
    asciiUpper c = c := by
  unfold asciiUpper
  rw [if_neg (by simpa using h)]

theorem isUpperLetter_asciiUpper (c : Char) :
    isUpperLetter (asciiUpper c) = isLetterCI c := by
  apply bool_eq_of_iff
  simp only [isUpperLetter, isLetterCI, isLowerLetter, Bool.and_eq_true, Bool.or_eq_true,
    decide_eq_true_eq, toNat_asciiUpper]
  by_cases h : 97 ≤ c.toNat ∧ c.toNat ≤ 122
  · rw [if_pos h]; omega
  · rw [if_neg h]; omega

theorem isDigitChar_asciiUpper (c : Char) :
    isDigitChar (asciiUpper c) = isDigitChar c := by
  apply bool_eq_of_iff
  simp only [isDigitChar, Bool.and_eq_true, decide_eq_true_eq, toNat_asciiUpper]
  by_cases h : 97 ≤ c.toNat ∧ c.toNat ≤ 122
  · rw [if_pos h]; omega
  · rw [if_neg h]

theorem asciiUpper_of_digit (c : Char) (h : isDigitChar c = true) : asciiUpper c = c := by
  refine asciiUpper_eq_self c ?_
  simp only [isDigitChar, Bool.and_eq_true, decide_eq_true_eq] at h
  omega

theorem jsWhitespace_asciiUpper (c : Char) :
    jsWhitespace (asciiUpper c) = jsWhitespace c := by
  apply bool_eq_of_iff
  simp only [jsWhitespace, List.mem_cons, List.not_mem_nil, or_false,
    decide_eq_true_eq, toNat_asciiUpper]
  by_cases h : 97 ≤ c.toNat ∧ c.toNat ≤ 122
  · rw [if_pos h]; omega
  · rw [if_neg h]

theorem codeSep_asciiUpper (c : Char) : codeSep (asciiUpper c) = codeSep c := by
  unfold codeSep
  rw [jsWhitespace_asciiUpper]
  congr 1
  apply bool_eq_of_iff
  simp only [decide_eq_true_eq, toNat_asciiUpper]
  by_cases h : 97 ≤ c.toNat ∧ c.toNat ≤ 122
  · rw [if_pos h]; omega
  · rw [if_neg h]

theorem takeDigits3_map (l : List Char) :
    takeDigits3 (l.map asciiUpper) =
      (takeDigits3 l).map (fun r => (r.1, r.2.map asciiUpper)) := by
  cases l with
  | nil => rfl
  | cons d1 t1 =>
    cases t1 with
    | nil => rfl
    | cons d2 t2 =>
      cases t2 with
      | nil => rfl
      | cons d3 r =>
        simp only [List.map_cons, takeDigits3, isDigitChar_asciiUpper]
        by_cases h : (isDigitChar d1 && isDigitChar d2 && isDigitChar d3) = true
        · rw [if_pos h, if_pos h]
          simp only [Bool.and_eq_true] at h
          rw [asciiUpper_of_digit d1 h.1.1, asciiUpper_of_digit d2 h.1.2,
            asciiUpper_of_digit d3 h.2]
          rfl
        · rw [if_neg h, if_neg h]
          rfl

theorem sepThenDigits_map (l : List Char) :
    sepThenDigits codeSep (l.map asciiUpper) =
      (sepThenDigits codeSep l).map (fun r => (r.1, r.2.map asciiUpper)) := by
  cases l with
  | nil => rfl
  | cons c t =>
    simp only [List.map_cons, sepThenDigits, codeSep_asciiUpper]
    by_cases h : codeSep c = true
    · rw [if_pos h, if_pos h]
      rw [takeDigits3_map t]
      cases htd : takeDigits3 t with
      | some r => rfl
      | none =>
        simp only [Option.map_none]
        have := takeDigits3_map (c :: t)
        simpa only [List.map_cons] using this
    · rw [if_neg h, if_neg h]
      have := takeDigits3_map (c :: t)
      simpa only [List.map_cons] using this

theorem takeClass_upper_map (k : Nat) (l : List Char) :
    takeClass isUpperLetter k (l.map asciiUpper) =
      (takeClass isLetterCI k l).map
        (fun r => (r.1.map asciiUpper, r.2.map asciiUpper)) := by
  induction k generalizing l with
  | zero => rfl
  | succ k ih =>
    cases l with
    | nil => rfl
    | cons c t =>
      simp only [List.map_cons, takeClass, isUpperLetter_asciiUpper]
      by_cases h : isLetterCI c = true
      · rw [if_pos h, if_pos h, ih t]
        cases takeClass isLetterCI k t <;> rfl
      · rw [if_neg h, if_neg h]
        rfl

theorem tryCount_map (k : Nat) (l : List Char) :
    tryCount isUpperLetter codeSep k (l.map asciiUpper) =
      (tryCount isLetterCI codeSep k l).map
        (fun r => ((r.1.1.map asciiUpper, r.1.2), r.2.map asciiUpper)) := by
  unfold tryCount
  rw [takeClass_upper_map k l]
  cases takeClass isLetterCI k l with
  | none => rfl
  | some r =>
    obtain ⟨ls, rest⟩ := r
    show (match sepThenDigits codeSep (rest.map asciiUpper) with
      | some (ds, r2) => some ((ls.map asciiUpper, ds), r2)
      | none => none) =
      Option.map (fun r => ((r.1.1.map asciiUpper, r.1.2), r.2.map asciiUpper))
        (match sepThenDigits codeSep rest with
        | some (ds, r2) => some ((ls, ds), r2)
        | none => none)
    rw [sepThenDigits_map rest]
    cases sepThenDigits codeSep rest with
    | none => rfl
    | some r2 => rfl

theorem tryMatchHere_map (l : List Char) :
    tryMatchHere isUpperLetter codeSep (l.map asciiUpper) =
      (tryMatchHere isLetterCI codeSep l).map
        (fun r => ((r.1.1.map asciiUpper, r.1.2), r.2.map asciiUpper)) := by
  unfold tryMatchHere
  rw [tryCount_map 4 l, tryCount_map 3 l, tryCount_map 2 l]
  cases tryCount isLetterCI codeSep 4 l with
  | some r => rfl
  | none =>
    cases tryCount isLetterCI codeSep 3 l with
    | some r => rfl
    | none => cases tryCount isLetterCI codeSep 2 l <;> rfl

theorem scanMatches_map (fuel : Nat) (l : List Char) :
    scanMatches isUpperLetter codeSep fuel (l.map asciiUpper) =
      (scanMatches isLetterCI codeSep fuel l).map
        (fun m => (m.1.map asciiUpper, m.2)) := by
  induction fuel generalizing l with
  | zero => rfl
  | succ fuel ih =>
    cases l with
    | nil => rfl
    | cons c t =>
      show scanMatches isUpperLetter codeSep (fuel + 1) ((c :: t).map asciiUpper) = _
      simp only [List.map_cons, scanMatches]
      have hm := tryMatchHere_map (c :: t)
      simp only [List.map_cons] at hm
      rw [hm]
      cases tryMatchHere isLetterCI codeSep (c :: t) with
      | none => exact ih t
      | some r =>
        obtain ⟨⟨ls, ds⟩, rest⟩ := r
        simp only [Option.map_some]
        show (ls.map asciiUpper, ds) :: scanMatches isUpperLetter codeSep fuel (rest.map asciiUpper) = _
        rw [ih rest]
        rfl

theorem jsToUpperChar_ascii (c : Char) (h : c.toNat < 128) :
    jsToUpperChar c = [asciiUpper c] := by
  unfold jsToUpperChar asciiUpper
  by_cases hl : 97 ≤ c.toNat ∧ c.toNat ≤ 122
  · rw [if_pos hl, if_pos (by simp [hl.1, hl.2])]
  · have hno : ∀ n : Nat, 128 ≤ n → c.toNat ≠ n := by
      intro n hn he
      omega
    rw [if_neg hl,
      if_neg (hno 0xdf (by norm_num)), if_neg (hno 0x131 (by norm_num)),
      if_neg (hno 0x17f (by norm_num)), if_neg (hno 0x149 (by norm_num)),
      if_neg (hno 0x1f0 (by norm_num)), if_neg (hno 0x1e96 (by norm_num)),
      if_neg (hno 0x1e97 (by norm_num)), if_neg (hno 0x1e98 (by norm_num)),
      if_neg (hno 0x1e99 (by norm_num)), if_neg (hno 0x1e9a (by norm_num)),
      if_neg (hno 0xfb00 (by norm_num)), if_neg (hno 0xfb01 (by norm_num)),
      if_neg (hno 0xfb02 (by norm_num)), if_neg (hno 0xfb03 (by norm_num)),
      if_neg (hno 0xfb04 (by norm_num)), if_neg (hno 0xfb05 (by norm_num)),
      if_neg (hno 0xfb06 (by norm_num)), if_neg (by simpa using hl)]

theorem jsToUpperList_ascii (l : List Char) (h : ∀ c ∈ l, c.toNat < 128) :
    jsToUpperList l = l.map asciiUpper := by
  induction l with
  | nil => rfl
  | cons c t ih =>
    have hc := h c (by simp)
    have hrest : ∀ x ∈ t, x.toNat < 128 := fun x hx => h x (List.mem_cons_of_mem _ hx)
    simp only [jsToUpperList, List.map_cons, jsToUpperChar_ascii c hc, ih hrest,
      List.singleton_append]

theorem extract_eq_specExtract (query : String)
    (h : ∀ c ∈ query.data, c.toNat < 128) :
    extractCoursesAndProfessors query = specExtract codeSep query := by
  simp only [extractCoursesAndProfessors, specExtract]
  rw [jsToUpperList_ascii query.data h]
  rw [show (query.data.map asciiUpper).length = query.data.length from by simp,
    scanMatches_map query.data.length query.data, List.map_map]
  rfl

/-- C2 counterexample: the claimed pattern — 2-4 uppercase letters, an
optional space or hyphen, 3 digits, matched case-insensitively — fails
the extractor in two ways.  On `CSCE<TAB>221` the extractor returns
`["CSCE 221"]` because the regex separator class `[\s-]` accepts any
whitespace, while the claimed pattern matches nothing there.  On
`a\u00df123` (sharp s) the extractor returns `["ASS 123"]` because
matching happens on the `toUpperCase`-transformed text and the full case
mapping turns the sharp s into `SS`, while case-insensitive matching of
the original text (with either separator class) matches nothing. -/
theorem extractor_claimed_pattern_cex :
    (extractCoursesAndProfessors "CSCE\t221" = ["CSCE 221"] ∧
      specExtract claimSep "CSCE\t221" = []) ∧
    (extractCoursesAndProfessors "a\u00df123" = ["ASS 123"] ∧
      specExtract claimSep "a\u00df123" = [] ∧
      specExtract codeSep "a\u00df123" = []) := by
  refine ⟨⟨by decide, by decide⟩, by decide, by decide, by decide⟩

/-- C2 amended: for every ASCII input text the extractor returns exactly
the course codes matched case-insensitively by the pattern "2-4 letters,
optional whitespace character or hyphen, 3 digits", each normalized to
`LETTERS SPACE DIGITS`, deduplicated keeping first-occurrence order, and
the empty sequence when there is no match.  (On non-ASCII text the
pattern is matched against the `toUpperCase`-transformed text instead,
whose full case mappings can create new uppercase letters, as in
`a\u00df123` extracting `["ASS 123"]`.)  The specification example
extracts `["CSCE 221", "MATH 151"]`. -/
theorem extractor_matches_spec_pattern :
    (∀ query : String, (∀ c ∈ query.data, c.toNat < 128) →
      extractCoursesAndProfessors query = specExtract codeSep query) ∧
    extractCoursesAndProfessors "compare csce221 and MATH-151, and CSCE 221 again" =
      ["CSCE 221", "MATH 151"] ∧
    extractCoursesAndProfessors "a\u00df123" = ["ASS 123"] ∧
    extractCoursesAndProfessors "no course here" = [] :=
  ⟨extract_eq_specExtract, by decide, by decide, by decide⟩

/-- Witness for the amended C2 at a concrete ASCII input. -/
theorem extractor_matches_spec_pattern_witness :
    (∀ c ∈ ("compare csce221 and MATH-151").data, c.toNat < 128) ∧
    extractCoursesAndProfessors "compare csce221 and MATH-151" =
      specExtract codeSep "compare csce221 and MATH-151" :=
  ⟨by decide, extractor_matches_spec_pattern.1 "compare csce221 and MATH-151" (by decide)⟩

/-! ### Lemmas about the pipeline -/

theorem eventsOf_nil : eventsOf [] = [] := rfl

theorem eventsOf_cons_emit (e : Event) (t : List Action) :
    eventsOf (.emit e :: t) = e :: eventsOf t := rfl

theorem eventsOf_append (l1 l2 : List Action) :
    eventsOf (l1 ++ l2) = eventsOf l1 ++ eventsOf l2 := by
  simp [eventsOf]

theorem eventsOf_map_fetchStats (l : List String) :
    eventsOf (l.map Action.fetchStats) = [] := by
  induction l with
  | nil => rfl
  | cons a t ih => simp [eventsOf] at ih ⊢

theorem eventsOf_map_fetchProf (l : List String) :
    eventsOf (l.map Action.fetchProf) = [] := by
  induction l with
  | nil => rfl
  | cons a t ih => simp [eventsOf] at ih ⊢

theorem eventsOf_map_chunk (l : List String) :
    eventsOf (l.map (fun s => Action.emit (.chunk s))) = l.map Event.chunk := by
  induction l with
  | nil => rfl
  | cons a t ih => simpa [eventsOf] using ih

theorem invalidOf_ne_nil_courses_ne_nil (db : String → Bool) (l : List String)
    (h : invalidOf db l ≠ []) : l ≠ [] := by
  intro he
  rw [he] at h
  exact h rfl

theorem all_invalid_active_empty (db : String → Bool) (l : List String)
    (h : (invalidOf db l).length = l.length) :
    l.filter (fun course => !((invalidOf db l).contains course)) = [] := by
  have hall : ∀ x ∈ l, (!(checkMultipleCoursesExist db l x)) = true :=
    List.filter_length_eq_length.mp h
  rw [List.filter_eq_nil_iff]
  intro x hx
  have hxmem : x ∈ invalidOf db l := List.mem_filter.mpr ⟨hx, hall x hx⟩
  simp [List.contains, hxmem]

theorem validOf_ne_nil (db : String → Bool) (l : List String)
    (h : (invalidOf db l).length ≠ l.length) : validOf db l ≠ [] := by
  intro he
  apply h
  unfold invalidOf
  rw [List.filter_length_eq_length]
  intro x hx
  unfold validOf at he
  rw [List.filter_eq_nil_iff] at he
  have hxc := he x hx
  simp only [List.contains, Bool.not_eq_true', Bool.not_eq_false] at hxc
  have hxmem : x ∈ invalidOf db l := by
    have h2 : decide (x ∈ invalidOf db l) = true := by
      rw [← List.elem_eq_mem]
      exact hxc
    exact of_decide_eq_true h2
  exact (List.mem_filter.mp hxmem).2

theorem validOf_eq_filter_exists (db : String → Bool) (l : List String) :
    validOf db l = l.filter (fun course => checkMultipleCoursesExist db l course) := by
  unfold validOf
  refine List.filter_congr ?_
  intro x hx
  by_cases hc : checkMultipleCoursesExist db l x = true
  · have hxnot : x ∉ invalidOf db l := by
      intro hmem
      have := (List.mem_filter.mp hmem).2
      rw [hc] at this
      exact Bool.noConfusion this
    simp [List.contains, hxnot, hc]
  · have hxmem : x ∈ invalidOf db l :=
      List.mem_filter.mpr ⟨hx, by simp [Bool.not_eq_true] at hc ⊢; exact hc⟩
    simp only [List.contains]
    rw [List.elem_eq_mem]
    simp [hxmem]
    simp [Bool.not_eq_true] at hc
    exact hc

/-! ### Claim theorems: the answer pipeline -/

/-- C1 counterexample: for the query `compare CSCE 221 and FAKE999`
against a database containing only the `csce221` table, the streaming
turn emits just the `Found courses` status and a `complete` event that
reports `FAKE 999` as unavailable and carries
`activeCourses = ["CSCE 221"]` — but the turn performs no statistics
fetch, no professor fetch and no model call: the valid subset is not
processed in this turn, contrary to the claim that the pipeline proceeds
to fetch its statistics and generate an answer from them. -/
theorem partial_validity_turn_skips_fetch_cex :
    answerWithRagStreaming (fun t => t = "csce221") (fun _ => ()) (fun _ => ())
      (fun _ => "") (fun _ => "") (fun _ => .createFailed)
      "compare CSCE 221 and FAKE999" [] (some ⟨none, []⟩) =
      [Action.emit (.status "Found courses: CSCE 221, FAKE 999. Checking availability..." 10),
       Action.emit (.complete
         "Howdy! I don\x27t have any data for FAKE 999. I\x27ll answer based on the other course(s) you mentioned."
         ⟨some "CSCE 221", ["CSCE 221"]⟩)] ∧
    (answerWithRagStreaming (fun t => t = "csce221") (fun _ => ()) (fun _ => ())
      (fun _ => "") (fun _ => "") (fun _ => .createFailed)
      "compare CSCE 221 and FAKE999" [] (some ⟨none, []⟩)).filter isWorkAction = [] := by
  constructor
  · decide
  · decide

/-- C1 amended: on a turn whose extracted course list has at least one
valid and at least one invalid course, the pipeline (streaming and
non-streaming alike) reports the invalid courses as unavailable and
returns a sessionContext whose activeCourses is exactly the valid subset
(currentCourse its first element), but ends the turn there: it performs
no statistics fetch and no model call, so no answer is generated from
the valid subset in that turn (the valid subset only becomes active
context for subsequent turns). -/
theorem partial_validity_terminates_turn {γ : Type u} {π : Type v}
    (db : String → Bool) (stats : String → γ) (profs : γ → π)
    (serCourse : List (String × γ) → String) (serProf : List (String × π) → String)
    (llm : String → LlmStreamResult) (llmOnce : String → Except Unit String)
    (query : String) (hist : List ChatTurn) (ctx : Option SessionContext)
    (hsome : invalidOf db (coursesToUseOf query ctx) ≠ [])
    (hnotall : (invalidOf db (coursesToUseOf query ctx)).length ≠
      (coursesToUseOf query ctx).length) :
    answerWithRagStreaming db stats profs serCourse serProf llm query hist ctx =
      [Action.emit (.status (foundCoursesMessage (coursesToUseOf query ctx)) 10),
       Action.emit (.complete
         (partialInvalidMessage (invalidOf db (coursesToUseOf query ctx)))
         ⟨some (validOf db (coursesToUseOf query ctx)).headI,
          validOf db (coursesToUseOf query ctx)⟩)] ∧
    validOf db (coursesToUseOf query ctx) =
      (coursesToUseOf query ctx).filter
        (fun course => checkMultipleCoursesExist db (coursesToUseOf query ctx) course) ∧
    validOf db (coursesToUseOf query ctx) ≠ [] ∧
    (answerWithRag db stats profs serCourse serProf llmOnce query hist ctx).1 =
      ⟨partialInvalidMessage (invalidOf db (coursesToUseOf query ctx)),
       ⟨some (validOf db (coursesToUseOf query ctx)).headI,
        validOf db (coursesToUseOf query ctx)⟩⟩ ∧
    (answerWithRag db stats profs serCourse serProf llmOnce query hist ctx).2 = [] := by
  have hne : coursesToUseOf query ctx ≠ [] :=
    invalidOf_ne_nil_courses_ne_nil db _ hsome
  have h0 : ¬ (coursesToUseOf query ctx).length = 0 := by
    intro h
    exact hne (List.length_eq_zero.mp h)
  have h1 : 0 < (invalidOf db (coursesToUseOf query ctx)).length :=
    List.length_pos.mpr hsome
  refine ⟨?_, validOf_eq_filter_exists db _, validOf_ne_nil db _ hnotall, ?_, ?_⟩
  · simp only [answerWithRagStreaming]
    rw [if_neg h0, if_pos h1, if_neg hnotall]
  · simp only [answerWithRag]
    rw [if_neg h0, if_pos h1, if_neg hnotall]
  · simp only [answerWithRag]
    rw [if_neg h0, if_pos h1, if_neg hnotall]

/-- Witness for the amended C1 at a concrete input. -/
theorem partial_validity_terminates_turn_witness :
    invalidOf (fun t => t = "math151") (coursesToUseOf "MATH 151 or FAKE 999?" (some ⟨none, []⟩)) ≠ [] ∧
    (invalidOf (fun t => t = "math151")
        (coursesToUseOf "MATH 151 or FAKE 999?" (some ⟨none, []⟩))).length ≠
      (coursesToUseOf "MATH 151 or FAKE 999?" (some ⟨none, []⟩)).length ∧
    (answerWithRagStreaming (fun t => t = "math151") (fun _ => ()) (fun _ => ())
        (fun _ => "") (fun _ => "") (fun _ => .createFailed)
        "MATH 151 or FAKE 999?" [] (some ⟨none, []⟩) =
      [Action.emit (.status
         (foundCoursesMessage (coursesToUseOf "MATH 151 or FAKE 999?" (some ⟨none, []⟩))) 10),
       Action.emit (.complete
         (partialInvalidMessage (invalidOf (fun t => t = "math151")
           (coursesToUseOf "MATH 151 or FAKE 999?" (some ⟨none, []⟩))))
         ⟨some (validOf (fun t => t = "math151")
             (coursesToUseOf "MATH 151 or FAKE 999?" (some ⟨none, []⟩))).headI,
          validOf (fun t => t = "math151")
            (coursesToUseOf "MATH 151 or FAKE 999?" (some ⟨none, []⟩))⟩)] ∧
      validOf (fun t => t = "math151") (coursesToUseOf "MATH 151 or FAKE 999?" (some ⟨none, []⟩)) =
        (coursesToUseOf "MATH 151 or FAKE 999?" (some ⟨none, []⟩)).filter
          (fun course => checkMultipleCoursesExist (fun t => t = "math151")
            (coursesToUseOf "MATH 151 or FAKE 999?" (some ⟨none, []⟩)) course) ∧
      validOf (fun t => t = "math151") (coursesToUseOf "MATH 151 or FAKE 999?" (some ⟨none, []⟩)) ≠ [] ∧
      (answerWithRag (fun t => t = "math151") (fun _ => ()) (fun _ => ())
          (fun _ => "") (fun _ => "") (fun _ => Except.ok "unused")
          "MATH 151 or FAKE 999?" [] (some ⟨none, []⟩)).1 =
        ⟨partialInvalidMessage (invalidOf (fun t => t = "math151")
            (coursesToUseOf "MATH 151 or FAKE 999?" (some ⟨none, []⟩))),
         ⟨some (validOf (fun t => t = "math151")
             (coursesToUseOf "MATH 151 or FAKE 999?" (some ⟨none, []⟩))).headI,
          validOf (fun t => t = "math151")
            (coursesToUseOf "MATH 151 or FAKE 999?" (some ⟨none, []⟩))⟩⟩ ∧
      (answerWithRag (fun t => t = "math151") (fun _ => ()) (fun _ => ())
          (fun _ => "") (fun _ => "") (fun _ => Except.ok "unused")
          "MATH 151 or FAKE 999?" [] (some ⟨none, []⟩)).2 = []) :=
  ⟨by decide, by decide,
    partial_validity_terminates_turn (fun t => t = "math151") (fun _ => ()) (fun _ => ())
      (fun _ => "") (fun _ => "") (fun _ => .createFailed) (fun _ => Except.ok "unused")
      "MATH 151 or FAKE 999?" [] (some ⟨none, []⟩) (by decide) (by decide)⟩

theorem complete_not_mem_map_chunk (ans : String) (c : SessionContext)
    (l : List String) : Event.complete ans c ∉ l.map Event.chunk := by
  intro h
  obtain ⟨x, _, hx⟩ := List.mem_map.mp h
  exact Event.noConfusion hx

theorem complete_mem_streamingTail (res : LlmStreamResult) (fc : SessionContext)
    (ans : String) (c : SessionContext)
    (h : Event.complete ans c ∈ eventsOf (streamingTail res fc)) : c = fc := by
  cases res with
  | createFailed => simp [streamingTail, eventsOf] at h
  | streamed chunks interrupted =>
    simp only [streamingTail, eventsOf_append, eventsOf_cons_emit, eventsOf_nil,
      eventsOf_map_chunk] at h
    rcases List.mem_append.mp h with h1 | h1
    · rcases List.mem_append.mp h1 with h2 | h2
      · simp at h2
      · exact absurd h2 (complete_not_mem_map_chunk ans c _)
    · cases interrupted with
      | true => simp [eventsOf] at h1
      | false =>
        simp only [if_neg Bool.false_ne_true, eventsOf_cons_emit, eventsOf_nil,
          List.mem_singleton, Event.complete.injEq] at h1
        exact h1.2

theorem ctxWellFormed_head (l : List String) (h : l ≠ []) :
    ctxWellFormed ⟨some l.headI, l⟩ = true := by
  cases l with
  | nil => exact absurd rfl h
  | cons a t => simp [ctxWellFormed, List.headI]

/-- C9: every sessionContext the pipeline returns — inside a streaming
`complete` event or as the non-streaming result, on the no-course,
all-invalid, partially-invalid, success and model-failure paths alike —
has `currentCourse = none` exactly when `activeCourses` is empty and
otherwise `currentCourse` equal to the first element of
`activeCourses`. -/
theorem session_context_well_formed {γ : Type u} {π : Type v}
    (db : String → Bool) (stats : String → γ) (profs : γ → π)
    (serCourse : List (String × γ) → String) (serProf : List (String × π) → String)
    (llm : String → LlmStreamResult) (llmOnce : String → Except Unit String)
    (query : String) (hist : List ChatTurn) (ctx : Option SessionContext) :
    (∀ ans c, Event.complete ans c ∈
        eventsOf (answerWithRagStreaming db stats profs serCourse serProf llm query hist ctx) →
      ctxWellFormed c = true) ∧
    ctxWellFormed
      (answerWithRag db stats profs serCourse serProf llmOnce query hist ctx).1.sessionContext
      = true := by
  by_cases h0 : (coursesToUseOf query ctx).length = 0
  · constructor
    · intro ans c hmem
      simp only [answerWithRagStreaming, if_pos h0, eventsOf_cons_emit, eventsOf_nil,
        List.mem_singleton, Event.complete.injEq] at hmem
      rw [hmem.2]
      rfl
    · simp only [answerWithRag, if_pos h0]
      rfl
  · by_cases h1 : 0 < (invalidOf db (coursesToUseOf query ctx)).length
    · by_cases h2 : (invalidOf db (coursesToUseOf query ctx)).length =
        (coursesToUseOf query ctx).length
      · have hempty := all_invalid_active_empty db (coursesToUseOf query ctx) h2
        constructor
        · intro ans c hmem
          simp only [answerWithRagStreaming, if_neg h0, if_pos h1, if_pos h2,
            eventsOf_cons_emit, eventsOf_nil, List.mem_cons, List.not_mem_nil,
            or_false] at hmem
          rcases hmem with hmem | hmem
          · exact absurd hmem (by simp)
          · rw [hempty] at hmem
            simp only [Event.complete.injEq] at hmem
            rw [hmem.2]
            rfl
        · simp only [answerWithRag, if_neg h0, if_pos h1, if_pos h2]
          rw [hempty]
          rfl
      · have hvne := validOf_ne_nil db (coursesToUseOf query ctx) h2
        constructor
        · intro ans c hmem
          simp only [answerWithRagStreaming, if_neg h0, if_pos h1, if_neg h2,
            eventsOf_cons_emit, eventsOf_nil, List.mem_cons, List.not_mem_nil,
            or_false] at hmem
          rcases hmem with hmem | hmem
          · exact absurd hmem (by simp)
          · simp only [Event.complete.injEq] at hmem
            rw [hmem.2]
            exact ctxWellFormed_head _ hvne
        · simp only [answerWithRag, if_neg h0, if_pos h1, if_neg h2]
          exact ctxWellFormed_head _ hvne
    · have hlne : coursesToUseOf query ctx ≠ [] := by
        intro h
        exact h0 (by rw [h]; rfl)
      constructor
      · intro ans c hmem
        simp only [answerWithRagStreaming, if_neg h0, if_neg h1, eventsOf_append,
          eventsOf_cons_emit, eventsOf_nil, eventsOf_map_fetchStats,
          eventsOf_map_fetchProf, List.append_nil, List.nil_append] at hmem
        simp only [List.cons_append, List.nil_append, List.mem_cons] at hmem
        rcases hmem with hmem | hmem | hmem | hmem | hmem
        · exact absurd hmem (by simp)
        · exact absurd hmem (by simp)
        · exact absurd hmem (by simp)
        · exact absurd hmem (by simp)
        · rcases List.mem_append.mp hmem with hmem2 | hmem2
          · simp [eventsOf] at hmem2
          · have hc := complete_mem_streamingTail _ _ ans c hmem2
            rw [hc]
            exact ctxWellFormed_head _ hlne
      · simp only [answerWithRag, if_neg h0, if_neg h1]
        cases llmOnce (buildPromptWithMultiCourses serCourse serProf query hist
            ((coursesToUseOf query ctx).map (fun course => (course, stats course)))
            ((coursesToUseOf query ctx).map (fun course => (course, profs (stats course))))
            ⟨some (coursesToUseOf query ctx).headI, coursesToUseOf query ctx⟩) with
        | ok answer =>
          simp only [ragResultOf]
          exact ctxWellFormed_head _ hlne
        | error e =>
          simp only [ragResultOf]
          exact ctxWellFormed_head _ hlne

theorem filter_isTerminal_map_chunk (l : List String) :
    (l.map Event.chunk).filter isTerminal = [] := by
  induction l with
  | nil => rfl
  | cons a t ih => simp [isTerminal] at ih ⊢

theorem chunkContents_map_chunk (l : List String) :
    chunkContents (l.map Event.chunk) = l := by
  induction l with
  | nil => rfl
  | cons a t ih => simpa [chunkContents] using ih

theorem chunkContents_append (l1 l2 : List Event) :
    chunkContents (l1 ++ l2) = chunkContents l1 ++ chunkContents l2 := by
  simp [chunkContents]

theorem eventsOf_streamingTail_ne_nil (res : LlmStreamResult) (fc : SessionContext) :
    eventsOf (streamingTail res fc) ≠ [] := by
  cases res with
  | createFailed => simp [streamingTail, eventsOf]
  | streamed chunks interrupted =>
    simp [streamingTail, eventsOf_append, eventsOf_cons_emit]

theorem streamingTail_terminals (res : LlmStreamResult) (fc : SessionContext) :
    ((eventsOf (streamingTail res fc)).filter isTerminal).length = 1 ∧
    ∃ t, (eventsOf (streamingTail res fc)).getLast? = some t ∧ isTerminal t = true := by
  cases res with
  | createFailed =>
    exact ⟨rfl, ⟨.error apologyMessage, rfl, rfl⟩⟩
  | streamed chunks interrupted =>
    simp only [streamingTail, eventsOf_append, eventsOf_cons_emit, eventsOf_nil,
      eventsOf_map_chunk]
    cases interrupted with
    | true =>
      refine ⟨?_, ⟨.error apologyMessage, ?_, rfl⟩⟩
      · simp [List.filter_append, filter_isTerminal_map_chunk, isTerminal, eventsOf]
      · rw [if_pos rfl, eventsOf_cons_emit, eventsOf_nil,
          List.getLast?_append_of_ne_nil _ (by simp)]
        rfl
    | false =>
      refine ⟨?_, ⟨.complete (String.join (chunks.filter (fun s => s ≠ ""))) fc, ?_, rfl⟩⟩
      · simp [List.filter_append, filter_isTerminal_map_chunk, isTerminal,
          if_neg Bool.false_ne_true, eventsOf]
      · rw [if_neg Bool.false_ne_true, eventsOf_cons_emit, eventsOf_nil,
          List.getLast?_append_of_ne_nil _ (by simp)]
        rfl

theorem streamingTail_complete_ans (res : LlmStreamResult) (fc : SessionContext)
    (ans : String) (c : SessionContext)
    (h : Event.complete ans c ∈ eventsOf (streamingTail res fc)) :
    ans = String.join (chunkContents (eventsOf (streamingTail res fc))) := by
  cases res with
  | createFailed => simp [streamingTail, eventsOf] at h
  | streamed chunks interrupted =>
    simp only [streamingTail, eventsOf_append, eventsOf_cons_emit, eventsOf_nil,
      eventsOf_map_chunk] at h ⊢
    cases interrupted with
    | true =>
      exfalso
      rw [if_pos rfl, eventsOf_cons_emit, eventsOf_nil] at h
      rcases List.mem_append.mp h with h1 | h1
      · rcases List.mem_append.mp h1 with h2 | h2
        · simp at h2
        · exact complete_not_mem_map_chunk ans c _ h2
      · simp at h1
    | false =>
      rw [if_neg Bool.false_ne_true, eventsOf_cons_emit, eventsOf_nil] at h ⊢
      have hans : ans = String.join (chunks.filter (fun s => s ≠ "")) := by
        rcases List.mem_append.mp h with h1 | h1
        · rcases List.mem_append.mp h1 with h2 | h2
          · simp at h2
          · exact absurd h2 (complete_not_mem_map_chunk ans c _)
        · simp only [List.mem_singleton, Event.complete.injEq] at h1
          exact h1.1
      rw [hans]
      congr 1
      rw [chunkContents_append, chunkContents_append, chunkContents_map_chunk]
      simp [chunkContents]

/-- C8 counterexample: the streaming turn for the query `hello` (no
course code, empty context) emits the initial status and then a
`complete` event whose answer is the fixed clarification message, with
zero chunk events: the concatenation of the chunk contents is the empty
string and differs from the `complete` answer, refuting the claim that
for every streaming turn the chunk concatenation equals the complete
answer. -/
theorem stream_no_course_chunk_concat_cex :
    eventsOf ((postStreaming (fun _ => false) (fun _ : String => ()) (fun _ : Unit => ())
        (fun _ => "") (fun _ => "") (fun _ => .createFailed) "hello" [] none).getD []) =
      [.status "Starting data collection..." 0,
       .complete noCourseMessage ⟨none, []⟩] ∧
    chunkContents [Event.status "Starting data collection..." 0,
      Event.complete noCourseMessage ⟨none, []⟩] = [] ∧
    noCourseMessage ≠ "" := by
  refine ⟨by decide, rfl, by decide⟩

theorem eventsOf_cons_callLLM (prompt : String) (t : List Action) :
    eventsOf (.callLLM prompt :: t) = eventsOf t := rfl

theorem filter_isTerminal_statuses (ss : List Event)
    (h : ∀ e ∈ ss, isStatus e = true) : ss.filter isTerminal = [] := by
  induction ss with
  | nil => rfl
  | cons a t ih =>
    have ha := h a (by simp)
    have hrest : ∀ e ∈ t, isStatus e = true := fun e he => h e (by simp [he])
    cases a with
    | status m p => simpa [isTerminal] using ih hrest
    | chunk c => simp [isStatus] at ha
    | complete x y => simp [isStatus] at ha
    | error m => simp [isStatus] at ha

theorem chunkContents_statuses (ss : List Event)
    (h : ∀ e ∈ ss, isStatus e = true) : chunkContents ss = [] := by
  induction ss with
  | nil => rfl
  | cons a t ih =>
    have ha := h a (by simp)
    have hrest : ∀ e ∈ t, isStatus e = true := fun e he => h e (by simp [he])
    cases a with
    | status m p => simpa [chunkContents] using ih hrest
    | chunk c => simp [isStatus] at ha
    | complete x y => simp [isStatus] at ha
    | error m => simp [isStatus] at ha

theorem wellShapedStream_statuses_append (ss tail : List Event)
    (hss : ∀ e ∈ ss, isStatus e = true) (hnz : ss ≠ [])
    (hterm : (tail.filter isTerminal).length = 1)
    (hlast : ∃ t, tail.getLast? = some t ∧ isTerminal t = true)
    (hcomp : ∀ ans c, Event.complete ans c ∈ tail →
      chunkContents tail = [] ∨ ans = String.join (chunkContents tail)) :
    wellShapedStream (ss ++ tail) := by
  obtain ⟨t0, hlast0, hterm0⟩ := hlast
  have htailne : tail ≠ [] := by
    intro h
    rw [h] at hlast0
    exact Option.noConfusion hlast0
  have hckss := chunkContents_statuses ss hss
  refine ⟨?_, ?_, ?_, ?_⟩
  · rw [List.filter_append]
    cases hss0 : ss with
    | nil => exact absurd hss0 hnz
    | cons a t =>
      have ha : isStatus a = true := hss a (by rw [hss0]; simp)
      simp [List.filter_cons, ha]
  · rw [List.filter_append, filter_isTerminal_statuses ss hss, List.nil_append]
    exact hterm
  · exact ⟨t0, by rw [List.getLast?_append_of_ne_nil _ htailne]; exact hlast0, hterm0⟩
  · intro ans c hmem
    rcases List.mem_append.mp hmem with h1 | h1
    · have := hss _ h1
      simp [isStatus] at this
    · rw [chunkContents_append, hckss, List.nil_append]
      exact hcomp ans c h1

/-- C8 amended: every streaming turn's event sequence contains at least
one status event, ends with exactly one terminal `complete` or `error`
event (which is its last element), and every `complete` event's answer
equals the concatenation (in emission order) of the chunk contents
whenever any chunk was emitted; turns that terminate before generation
emit a `complete` carrying a fixed message and no chunks. -/
theorem stream_event_sequence_shape {γ : Type u} {π : Type v}
    (db : String → Bool) (stats : String → γ) (profs : γ → π)
    (serCourse : List (String × γ) → String) (serProf : List (String × π) → String)
    (llm : String → LlmStreamResult)
    (query : String) (hist : List ChatTurn) (ctx : Option SessionContext)
    (hq : query ≠ "") :
    wellShapedStream (eventsOf
      ((postStreaming db stats profs serCourse serProf llm query hist ctx).getD [])) := by
  have hpost : (postStreaming db stats profs serCourse serProf llm query hist ctx).getD []
      = .emit (.status "Starting data collection..." 0) ::
        answerWithRagStreaming db stats profs serCourse serProf llm query hist
          (some (ctx.getD ⟨none, []⟩)) := by
    simp [postStreaming, hq]
  rw [hpost, eventsOf_cons_emit]
  by_cases h0 : (coursesToUseOf query (some (ctx.getD ⟨none, []⟩))).length = 0
  · simp only [answerWithRagStreaming, if_pos h0, eventsOf_cons_emit, eventsOf_nil]
    exact wellShapedStream_statuses_append
      [Event.status "Starting data collection..." 0] _ (by intro e he; simp at he; rw [he]; rfl)
      (by simp) rfl ⟨_, rfl, rfl⟩ (fun ans c h => Or.inl rfl)
  · by_cases h1 : 0 < (invalidOf db (coursesToUseOf query (some (ctx.getD ⟨none, []⟩)))).length
    · by_cases h2 : (invalidOf db (coursesToUseOf query (some (ctx.getD ⟨none, []⟩)))).length =
        (coursesToUseOf query (some (ctx.getD ⟨none, []⟩))).length
      · simp only [answerWithRagStreaming, if_neg h0, if_pos h1, if_pos h2,
          eventsOf_cons_emit, eventsOf_nil]
        exact wellShapedStream_statuses_append
          [Event.status "Starting data collection..." 0,
           Event.status (foundCoursesMessage (coursesToUseOf query (some (ctx.getD ⟨none, []⟩)))) 10]
          _ (by intro e he; simp at he; rcases he with he | he <;> rw [he] <;> rfl)
          (by simp) rfl ⟨_, rfl, rfl⟩ (fun ans c h => Or.inl rfl)
      · simp only [answerWithRagStreaming, if_neg h0, if_pos h1, if_neg h2,
          eventsOf_cons_emit, eventsOf_nil]
        exact wellShapedStream_statuses_append
          [Event.status "Starting data collection..." 0,
           Event.status (foundCoursesMessage (coursesToUseOf query (some (ctx.getD ⟨none, []⟩)))) 10]
          _ (by intro e he; simp at he; rcases he with he | he <;> rw [he] <;> rfl)
          (by simp) rfl ⟨_, rfl, rfl⟩ (fun ans c h => Or.inl rfl)
    · simp only [answerWithRagStreaming, if_neg h0, if_neg h1, eventsOf_append,
        eventsOf_cons_emit, eventsOf_cons_callLLM, eventsOf_nil, eventsOf_map_fetchStats,
        eventsOf_map_fetchProf, List.nil_append, List.append_nil]
      refine wellShapedStream_statuses_append
        [Event.status "Starting data collection..." 0,
         Event.status (foundCoursesMessage (coursesToUseOf query (some (ctx.getD ⟨none, []⟩)))) 10,
         Event.status "Collecting course and professor data..." 20,
         Event.status "Course data collected. Gathering professor reviews..." 40,
         Event.status "Generating personalized recommendation..." 70] _
        ?_ (by simp) ((streamingTail_terminals _ _).1) ((streamingTail_terminals _ _).2)
        (fun ans c h => Or.inr (streamingTail_complete_ans _ _ ans c h))
      intro e he
      simp at he
      rcases he with he | he | he | he | he <;> rw [he] <;> rfl

/-- Witness for the amended C8 at a concrete input taking the full
success path. -/
theorem stream_event_sequence_shape_witness :
    ("tell me about CSCE 221" ≠ "") ∧
    wellShapedStream (eventsOf ((postStreaming (fun t => t = "csce221")
      (fun _ : String => ()) (fun _ : Unit => ()) (fun _ => "") (fun _ => "")
      (fun _ => .streamed ["Howdy ", "Ags!"] false)
      "tell me about CSCE 221" [] none).getD [])) :=
  ⟨by decide,
    stream_event_sequence_shape (fun t => t = "csce221") (fun _ : String => ())
      (fun _ : Unit => ()) (fun _ => "") (fun _ => "")
      (fun _ => .streamed ["Howdy ", "Ags!"] false)
      "tell me about CSCE 221" [] none (by decide)⟩

/-- Witness for C9 at a concrete input on the no-course path. -/
theorem session_context_well_formed_witness :
    Event.complete noCourseMessage ⟨none, []⟩ ∈
      eventsOf (answerWithRagStreaming (fun _ => false) (fun _ : String => ())
        (fun _ : Unit => ()) (fun _ => "") (fun _ => "") (fun _ => .createFailed)
        "hi" [] none) ∧
    ctxWellFormed ⟨none, []⟩ = true :=
  ⟨by decide,
    (session_context_well_formed (fun _ => false) (fun _ : String => ())
      (fun _ : Unit => ()) (fun _ => "") (fun _ => "") (fun _ => .createFailed)
      (fun _ => Except.ok "x") "hi" [] none).1
      noCourseMessage ⟨none, []⟩ (by decide)⟩

end GarnettAI
